import Mathlib

/-!
# The context logger of `clue/log`

A shallow embedding of `log/log.go`: the logger objects live in a store and are
reached from a context through a pointer, the backing arrays of the
`[]interface{}` slices live in a heap (so that two slices sharing an array are
visible), and the calls of `Write` on the configured writers are collected in a
trace.
-/

namespace Clue

/-! ## Data model -/

/-- A Go `interface{}` value as far as the logger looks at it: the nil
interface, a string, or a value of some other dynamic type. -/
inductive Value where
  | null
  | str (s : String)
  | int (n : Int)
  | bool (b : Bool)
deriving DecidableEq, Repr

/-- The bytes produced by a formatter: `[]byte`. -/
abbrev Bytes := List Nat

/-- A `time.Time`: an instant together with whether its location is UTC. -/
structure Time where
  nanos : Int
  utc : Bool
deriving DecidableEq, Repr

/-- The method `Time.UTC`: the same instant with the location set to UTC. -/
def Time.UTC (t : Time) : Time := { t with utc := true }

/-- The type `Severity int`. -/
abbrev Severity := Int

/-- The constant `SeverityDebug` (iota + 1). -/
def SeverityDebug : Severity := 1

/-- The constant `SeverityInfo`. -/
def SeverityInfo : Severity := 2

/-- The constant `SeverityError`. -/
def SeverityError : Severity := 3

/-- A Go slice header of type `[]interface{}`: the backing array (an index into
the heap), the length and the capacity. Every slice of the logger starts at the
beginning of its array. The nil slice has length and capacity zero. -/
structure Slice where
  ptr : Nat
  len : Nat
  cap : Nat
deriving DecidableEq, Repr

/-- The nil slice. -/
def Slice.nil : Slice := ⟨0, 0, 0⟩

/-- The backing arrays allocated so far. -/
abbrev Heap := List (List Value)

/-- The backing array a pointer designates. -/
def Heap.arr (h : Heap) (p : Nat) : List Value := h.getD p []

/-- The elements a slice designates in a heap. -/
def Heap.read (h : Heap) (s : Slice) : List Value := (h.arr s.ptr).take s.len

/-- Go's built-in `append(s, xs...)`. When the capacity of `s` suffices the
elements are written into the backing array of `s`, right after its length, and
the result shares that array. Otherwise a new array is allocated, of a capacity
that the runtime chooses (`grow oldCap needed`, never less than what is needed),
and the elements of `s` and `xs` are copied into it. -/
def goAppend (grow : Nat → Nat → Nat) (h : Heap) (s : Slice) (xs : List Value) :
    Slice × Heap :=
  if s.len + xs.length ≤ s.cap then
    let a := h.arr s.ptr
    ({ s with len := s.len + xs.length },
      h.set s.ptr (a.take s.len ++ xs ++ a.drop (s.len + xs.length)))
  else
    let needed := s.len + xs.length
    let newcap := max needed (grow s.cap needed)
    (⟨h.length, needed, newcap⟩,
      h ++ [h.read s ++ xs ++ List.replicate (newcap - needed) Value.null])

/-- The struct `Entry`. -/
structure Entry where
  Time : Time
  Severity : Severity
  KeyVals : Slice
  Message : String
deriving DecidableEq, Repr

/-- What a formatter sees when it is handed an `*Entry`: the fields of the entry,
with the key/value slice read through the heap. -/
structure EntryView where
  Time : Time
  Severity : Severity
  KeyVals : List Value
  Message : String
deriving DecidableEq, Repr

/-- The entry as seen through a heap. -/
def Heap.view (h : Heap) (e : Entry) : EntryView :=
  ⟨e.Time, e.Severity, h.read e.KeyVals, e.Message⟩

/-- Modelled from the spec: the struct `options`, whose declaration is not among
the sources. It has the three fields `log.go` reads, which are the configuration
the specification lists: the writer `w` (a writer is identified by a number),
the formatter `format` and the flag `debug`. -/
structure options where
  w : Nat
  format : EntryView → Bytes
  debug : Bool

/-- The struct `logger`. The mutex is left out: every function below runs from
start to end without interleaving. -/
structure logger where
  options : options
  keyvals : Slice
  entries : List Entry
  flushed : Bool

/-- Modelled from the spec: the type `LogOption`, whose declaration is not among
the sources. `Context` calls an option on the options of the logger, so an
option is a function that updates the options it is given. -/
abbrev LogOption := options → options

/-- The state of the program: the growth policy of `append`, the heap of
backing arrays, the logger objects (a `*logger` is an index into this list) and
the trace of the `Write` calls made so far, each with the writer it went to. -/
structure World where
  grow : Nat → Nat → Nat
  heap : Heap
  loggers : List logger
  out : List (Nat × Bytes)

/-- A `context.Context` as the logger sees it: the value found under the key
`ctxLogger`, either nothing or a pointer to a logger. -/
abbrev Ctx := Option Nat

/-! ## Operations -/

/-- The function `Context`: the logger of the context is reused when there is
one, otherwise a logger is created with the default options (`dflt` stands for
the result of `defaultOptions()`, a function that is not among the sources); the
options are then applied in order. -/
def Context (dflt : options) (w : World) (ctx : Ctx) (opts : List LogOption) :
    World × Ctx :=
  match ctx.bind (fun p => (w.loggers[p]?).map (fun l => (p, l))) with
  | some (p, l) =>
    let l : logger := { l with options := opts.foldl (fun o opt => opt o) l.options }
    ({ w with loggers := w.loggers.set p l }, some p)
  | none =>
    let l : logger := ⟨opts.foldl (fun o opt => opt o) dflt, Slice.nil, [], false⟩
    ({ w with loggers := w.loggers ++ [l] }, some w.loggers.length)

/-- The method `(*logger).flush`, on the logger `l` read from the store: the
result is the updated logger and the world with the writes added. -/
def logger.flush (l : logger) (w : World) : logger × World :=
  if l.flushed then (l, w)
  else
    let out := l.entries.foldl
      (fun o e => o ++ [(l.options.w, l.options.format (w.heap.view e))]) w.out
    ({ l with entries := [], flushed := true }, { w with out := out })

/-- The function `Flush`. -/
def Flush (w : World) (ctx : Ctx) : World :=
  match ctx.bind (fun p => (w.loggers[p]?).map (fun l => (p, l))) with
  | none => w
  | some (p, l) =>
    let (l, w) := l.flush w
    { w with loggers := w.loggers.set p l }

/-- The function `With`. -/
def With (w : World) (ctx : Ctx) (keyvals : List Value) : World × Ctx :=
  match ctx.bind (fun p => (w.loggers[p]?).map (fun l => (p, l))) with
  | none => (w, ctx)
  | some (p, l) =>
    let keyvals := if keyvals.length % 2 ≠ 0 then keyvals ++ [Value.null] else keyvals
    let (s, h) := goAppend w.grow w.heap l.keyvals keyvals
    ({ w with heap := h, loggers := w.loggers.set p { l with keyvals := s } }, ctx)

/-- The function `log`; `now` is the value `timeNow()` returns in this call. -/
def log (w : World) (ctx : Ctx) (sev : Severity) (buffer : Bool) (msg : String)
    (keyvals : List Value) (now : Time) : World :=
  match ctx.bind (fun p => (w.loggers[p]?).map (fun l => (p, l))) with
  | none => w
  | some (p, l) =>
    if !l.options.debug && sev == SeverityDebug then w
    else
      let (l, w) := if l.options.debug && !l.flushed then l.flush w else (l, w)
      let (kv, h) := goAppend w.grow w.heap l.keyvals keyvals
      let (kv, h) := if kv.len % 2 ≠ 0 then goAppend w.grow h kv [Value.null] else (kv, h)
      let e : Entry := ⟨now.UTC, sev, kv, msg⟩
      if l.flushed || !buffer then
        { w with heap := h, loggers := w.loggers.set p l,
                 out := w.out ++ [(l.options.w, l.options.format (h.view e))] }
      else
        { w with heap := h, loggers := w.loggers.set p { l with entries := l.entries ++ [e] } }

/-- The function `Debug`. -/
def Debug (w : World) (ctx : Ctx) (msg : String) (keyvals : List Value) (now : Time) : World :=
  log w ctx SeverityDebug true msg keyvals now

/-- The function `Print`. -/
def Print (w : World) (ctx : Ctx) (msg : String) (keyvals : List Value) (now : Time) : World :=
  log w ctx SeverityInfo false msg keyvals now

/-- The function `Info`. -/
def Info (w : World) (ctx : Ctx) (msg : String) (keyvals : List Value) (now : Time) : World :=
  log w ctx SeverityInfo true msg keyvals now

/-- The function `Error`. -/
def Error (w : World) (ctx : Ctx) (msg : String) (keyvals : List Value) (now : Time) : World :=
  log (Flush w ctx) ctx SeverityError true msg keyvals now

/-- How a call of a Go function ends: it returns a value, it panics, or the model ran
out of steps before it ended. -/
inductive Outcome (α : Type) where
  | ok (a : α)
  | panic
  | unfinished
deriving DecidableEq, Repr

/-- The key `Parse` stores for the element at an even index: the string itself when the
type assertion `kv[i].(string)` succeeds, the literal `<INVALID>` otherwise. -/
def keyOf (v : Value) : String :=
  match v with
  | Value.str s => s
  | _ => "<INVALID>"

/-- The loop of `KeyVals.Parse`, from the index `i` on, with the slices `keys` and
`vals` as they are so far. An index out of range, in `kv`, `keys` or `vals`, is a
panic. The first argument bounds the number of iterations the model runs. -/
def KeyVals.Parse.loop (kv : List Value) :
    Nat → Nat → List String → List Value → Outcome (List String × List Value)
  | 0, _, _, _ => Outcome.unfinished
  | fuel + 1, i, keys, vals =>
    if i < kv.length then
      match kv[i]? with
      | none => Outcome.panic
      | some k =>
        let key := keyOf k
        if i / 2 < keys.length then
          let keys := keys.set (i / 2) key
          match kv[i + 1]? with
          | none => Outcome.panic
          | some v =>
            if i / 2 < vals.length then
              KeyVals.Parse.loop kv fuel (i + 2) keys (vals.set (i / 2) v)
            else Outcome.panic
        else Outcome.panic
    else Outcome.ok (keys, vals)

/-- The method `KeyVals.Parse`, on the values of the slice. The two results of `make`
hold zero values: empty strings and nil interfaces. -/
def KeyVals.Parse (kv : List Value) : Outcome (List String × List Value) :=
  if kv.length = 0 then Outcome.ok ([], [])
  else
    KeyVals.Parse.loop kv (kv.length + 1) 0 (List.replicate (kv.length / 2) "")
      (List.replicate (kv.length / 2) Value.null)

/-- The method `Severity.Code`. -/
def Severity.Code (l : Severity) : String :=
  if l = SeverityDebug then "DEBG"
  else if l = SeverityInfo then "INFO"
  else if l = SeverityError then "ERRO"
  else "<INVALID>"

/-- The method `Severity.String`. -/
def Severity.String (l : Severity) : String :=
  if l = SeverityDebug then "DEBUG"
  else if l = SeverityInfo then "INFO"
  else if l = SeverityError then "ERROR"
  else "<INVALID>"

/-- One call of the package on a context. -/
inductive Call where
  | Context (opts : List LogOption)
  | With (keyvals : List Value)
  | Debug (msg : String) (keyvals : List Value) (now : Time)
  | Print (msg : String) (keyvals : List Value) (now : Time)
  | Info (msg : String) (keyvals : List Value) (now : Time)
  | Error (msg : String) (keyvals : List Value) (now : Time)
  | Flush
  | log (sev : Severity) (buffer : Bool) (msg : String) (keyvals : List Value) (now : Time)

/-- The effect of one call: the new world and the context the caller goes on
with (the one `Context` or `With` returns, the same one for the other calls). -/
def Call.run (dflt : options) (w : World) (ctx : Ctx) : Call → World × Ctx
  | Call.Context opts => Clue.Context dflt w ctx opts
  | Call.With keyvals => Clue.With w ctx keyvals
  | Call.Debug msg keyvals now => (Clue.Debug w ctx msg keyvals now, ctx)
  | Call.Print msg keyvals now => (Clue.Print w ctx msg keyvals now, ctx)
  | Call.Info msg keyvals now => (Clue.Info w ctx msg keyvals now, ctx)
  | Call.Error msg keyvals now => (Clue.Error w ctx msg keyvals now, ctx)
  | Call.Flush => (Clue.Flush w ctx, ctx)
  | Call.log sev buffer msg keyvals now => (Clue.log w ctx sev buffer msg keyvals now, ctx)

/-- The critical sections of a call, in order: each one runs with the mutex of the
logger held from its start to its end, and the mutex is free between two of them.
`Error` calls `Flush` and then `log`, and each of the two takes the mutex and
releases it when it returns. -/
def Call.sections : Call → List Call
  | Call.Error msg keyvals now => [Call.Flush, Call.log SeverityError true msg keyvals now]
  | c => [c]

/-- Whether a call takes the mutex of the logger before it touches the logger: `With`,
`Flush` and `log` (and the calls made of them) do, `Context` does not. -/
def Call.holdsMutex : Call → Bool
  | Call.Context _ => false
  | _ => true

/-- A sequence of `With` calls on one context. -/
def WithAll (w : World) (ctx : Ctx) (kvs : List (List Value)) : World :=
  kvs.foldl (fun w kv => (With w ctx kv).1) w

/-- A sequence of calls, each made on a context of the caller's choice. -/
def runAll (dflt : options) (w : World) (cs : List (Ctx × Call)) : World :=
  cs.foldl (fun w c => (c.2.run dflt w c.1).1) w

/-- The calls of a sequence, all made on the context bound to the logger `p`. -/
def onLogger (p : Nat) (cs : List Call) : List (Ctx × Call) :=
  cs.map (fun c => (some p, c))

/-- The example scenario of the specification on a context without a logger: the worlds
after `Context`, `With`, `Debug`, `Info` and `Error`, each call made on the context the
calls before it returned. -/
def scenarioWorlds (dflt : options) (w : World) (t1 t2 t3 : Time) : List World :=
  let c0 := Context dflt w none []
  let c1 := With c0.1 c0.2 [Value.str "req_id", Value.str "r1"]
  let w2 := Debug c1.1 c1.2 "start" [] t1
  let w3 := Info w2 c1.2 "step1" [] t2
  let w4 := Error w3 c1.2 "boom" [] t3
  [c0.1, c1.1, w2, w3, w4]

/-! ## Vocabulary of the statements -/

/-- A slice is well formed in a heap: its length is within its capacity and its
capacity within its backing array. Every slice a Go program holds is. -/
def SliceOK (h : Heap) (s : Slice) : Prop :=
  s.len ≤ s.cap ∧ s.cap ≤ (h.arr s.ptr).length

instance (h : Heap) (s : Slice) : Decidable (SliceOK h s) := by
  unfold SliceOK; infer_instance

/-- The padding both `With` and `log` apply: one nil value after a list of odd
length. -/
def padOdd (xs : List Value) : List Value :=
  if xs.length % 2 ≠ 0 then xs ++ [Value.null] else xs

/-- The two `append` calls of `log`: the call-site values after the shared
pairs, then one nil value when the length is odd. -/
def logAppend (g : Nat → Nat → Nat) (h : Heap) (s : Slice) (xs : List Value) : Slice × Heap :=
  if (goAppend g h s xs).1.len % 2 ≠ 0 then
    goAppend g (goAppend g h s xs).2 (goAppend g h s xs).1 [Value.null]
  else goAppend g h s xs

/-- What one `l.options.w.Write(l.options.format(e))` adds to the trace. -/
def render (o : options) (h : Heap) (e : Entry) : Nat × Bytes :=
  (o.w, o.format (h.view e))

/-- The flushed latch of the logger at `p` is set and its buffer is empty. -/
def Latched (w : World) (p : Nat) : Prop :=
  ∃ l, w.loggers[p]? = some l ∧ l.flushed = true ∧ l.entries = []

/-- The logger `log` leaves behind, given the entry it builds. -/
def logResult (l : logger) (sev : Severity) (buffer : Bool) (e : Entry) : logger :=
  if (!l.options.debug && sev == SeverityDebug) = true then l
  else if (l.options.debug && !l.flushed) = true then ⟨l.options, l.keyvals, [], true⟩
  else if (l.flushed || !buffer) = true then l
  else ⟨l.options, l.keyvals, l.entries ++ [e], l.flushed⟩

/-- The slice `e` of a buffered entry keeps the values `P` it took over from the shared
list: `P` is found at the start of its backing array, within its length, and in the part
of the array that an `append` to the shared slice `s` leaves alone. -/
def Pinned (h : Heap) (s e : Slice) (P : List Value) : Prop :=
  P.length ≤ e.len ∧ e.len ≤ (h.arr e.ptr).length
    ∧ (e.ptr = s.ptr → P.length ≤ s.len) ∧ (h.arr e.ptr).take P.length = P

/-- The views a `Flush` on the logger `p` would hand to the formatter, in order. -/
def bufferedViews (w : World) (p : Nat) : List EntryView :=
  match w.loggers[p]? with
  | none => []
  | some l => l.entries.map w.heap.view

/-- The entries in the buffer of the logger `p`. -/
def bufferOf (w : World) (p : Nat) : List Entry :=
  match w.loggers[p]? with
  | none => []
  | some l => l.entries

/-- What holds of every logger in every state the program reaches: the shared slice is
well formed, and the buffer is empty once the latch is set. -/
def Consistent (w : World) : Prop :=
  ∀ (p : Nat) (l : logger), w.loggers[p]? = some l →
    SliceOK w.heap l.keyvals ∧ (l.flushed = true → l.entries = [])

/-- What holds of every logger in every state the program reaches, as far as lengths go:
the shared slice is well formed and of even length, and the slice of every buffered
entry is of even length and lies within its backing array. -/
def EvenOK (w : World) : Prop :=
  ∀ (p : Nat) (l : logger), w.loggers[p]? = some l →
    SliceOK w.heap l.keyvals ∧ l.keyvals.len % 2 = 0
    ∧ ∀ e ∈ l.entries, e.KeyVals.len % 2 = 0
        ∧ e.KeyVals.len ≤ (w.heap.arr e.KeyVals.ptr).length

/-- The keys the specification asks of `Parse`: for every pair, the key when it is a
string and the literal `<INVALID>` otherwise. -/
def specKeys (kv : List Value) : List String :=
  (List.range (kv.length / 2)).map (fun j => keyOf (kv.getD (2 * j) Value.null))

/-- The values the specification asks of `Parse`: for every pair, the value that follows
the key, unchanged. -/
def specVals (kv : List Value) : List Value :=
  (List.range (kv.length / 2)).map (fun j => kv.getD (2 * j + 1) Value.null)

/-- The calls of the formatter that `(*logger).flush` makes when `Flush` runs: for each,
the options whose formatter and writer are used and the view the formatter is handed. -/
def flushViews (w : World) (ctx : Ctx) : List (options × EntryView) :=
  match ctx.bind (fun p => (w.loggers[p]?).map (fun l => (p, l))) with
  | none => []
  | some (_, l) =>
    if l.flushed then [] else l.entries.map (fun e => (l.options, w.heap.view e))

/-- The calls of the formatter that one call of `log` makes: those of the flush that debug
mode forces, then the one for its own entry when the entry is written at once. -/
def logViews (w : World) (ctx : Ctx) (sev : Severity) (buffer : Bool) (msg : String)
    (keyvals : List Value) (now : Time) : List (options × EntryView) :=
  match ctx.bind (fun p => (w.loggers[p]?).map (fun l => (p, l))) with
  | none => []
  | some (_, l) =>
    if !l.options.debug && sev == SeverityDebug then []
    else
      (if l.options.debug && !l.flushed
        then l.entries.map (fun e => (l.options, w.heap.view e)) else []) ++
      (if l.flushed || l.options.debug || !buffer
        then [(l.options, (logAppend w.grow w.heap l.keyvals keyvals).2.view
                ⟨now.UTC, sev, (logAppend w.grow w.heap l.keyvals keyvals).1, msg⟩)]
        else [])

/-- The calls of the formatter made during one call of the package, in order. -/
def Call.views (w : World) (ctx : Ctx) : Call → List (options × EntryView)
  | Call.Context _ => []
  | Call.With _ => []
  | Call.Debug msg keyvals now => logViews w ctx SeverityDebug true msg keyvals now
  | Call.Print msg keyvals now => logViews w ctx SeverityInfo false msg keyvals now
  | Call.Info msg keyvals now => logViews w ctx SeverityInfo true msg keyvals now
  | Call.Error msg keyvals now =>
    flushViews w ctx ++ logViews (Clue.Flush w ctx) ctx SeverityError true msg keyvals now
  | Call.Flush => flushViews w ctx
  | Call.log sev buffer msg keyvals now => logViews w ctx sev buffer msg keyvals now

/-- The calls of the formatter made during a sequence of calls, in order. -/
def runViews (dflt : options) : World → List (Ctx × Call) → List (options × EntryView)
  | _, [] => []
  | w, c :: t => c.2.views w c.1 ++ runViews dflt (c.2.run dflt w c.1).1 t

/-- What is written for one call of the formatter: the bytes it returns, to the writer of
the same options. -/
def written (ov : options × EntryView) : Nat × Bytes := (ov.1.w, ov.1.format ov.2)

/-- What identifies an entry: its time, its severity and its message. -/
abbrev Stamp := Time × Severity × String

/-- The stamp of an entry. -/
def Entry.stamp (e : Entry) : Stamp := (e.Time, e.Severity, e.Message)

/-- The stamp of the entry a formatter was handed. -/
def EntryView.stamp (v : EntryView) : Stamp := (v.Time, v.Severity, v.Message)

/-- The entry of a call of `log` that the debug filter lets through, none when the call is
dropped or the context has no logger. -/
def logAccepted (w : World) (ctx : Ctx) (sev : Severity) (msg : String) (now : Time) :
    List Stamp :=
  match ctx.bind (fun p => (w.loggers[p]?).map (fun l => (p, l))) with
  | none => []
  | some (_, l) =>
    if !l.options.debug && sev == SeverityDebug then [] else [(now.UTC, sev, msg)]

/-- The entries of the log calls that one call of the package makes and the debug
filter lets through. -/
def Call.accepted (w : World) (ctx : Ctx) : Call → List Stamp
  | Call.Context _ => []
  | Call.With _ => []
  | Call.Debug msg _ now => logAccepted w ctx SeverityDebug msg now
  | Call.Print msg _ now => logAccepted w ctx SeverityInfo msg now
  | Call.Info msg _ now => logAccepted w ctx SeverityInfo msg now
  | Call.Error msg _ now => logAccepted (Clue.Flush w ctx) ctx SeverityError msg now
  | Call.Flush => []
  | Call.log sev _ msg _ now => logAccepted w ctx sev msg now

/-- The entries of the accepted log calls of a sequence of calls, in call order. -/
def runAccepted (dflt : options) : World → List (Ctx × Call) → List Stamp
  | _, [] => []
  | w, c :: t => c.2.accepted w c.1 ++ runAccepted dflt (c.2.run dflt w c.1).1 t

/-- The call asks for buffering: every call but `Print` and `log` without the buffer
flag. -/
def Call.buffers : Call → Bool
  | Call.Print _ _ _ => false
  | Call.log _ buffer _ _ _ => buffer
  | _ => true

/-! ## Sample data -/

/-- A growth policy for the samples: what is needed when that is more than twice
the old capacity, twice the old capacity otherwise. It is what Go's runtime does
for a slice of `interface{}` values as long as the new capacity is at most sixteen
elements; for larger capacities the runtime also rounds up to a size class, which
this function leaves out. The samples stay at eight elements or fewer. -/
def goGrow (oldCap needed : Nat) : Nat :=
  if 2 * oldCap < needed then needed else 2 * oldCap

/-- A formatter that writes the message and then, for every key or value, a
separator and the characters of the value. -/
def sampleFormat (e : EntryView) : Bytes :=
  e.Message.toList.map Char.toNat ++
    (e.KeyVals.map (fun v => match v with
      | Value.null => [32, 0]
      | Value.str s => 32 :: s.toList.map Char.toNat
      | Value.int n => [32, n.toNat]
      | Value.bool b => [32, if b then 1 else 0])).flatten

/-- Default options for the samples: writer 0, the sample formatter, no debug. -/
def sampleOptions : options := ⟨0, sampleFormat, false⟩

/-- The empty world, with `goGrow` as the growth policy of `append`. -/
def World.empty : World := ⟨goGrow, [], [], []⟩

/-- A logger with one pair in the shared list and two buffered entries. -/
def sampleWorld : World :=
  Info (Info (With (Context sampleOptions World.empty none []).1 (some 0)
    [Value.str "req_id", Value.str "r1"]).1 (some 0) "step1" [] ⟨5, false⟩)
    (some 0) "step2" [Value.str "n", Value.int 7] ⟨6, false⟩

/-- The logger of the sample world. -/
def sampleLogger : logger :=
  ⟨sampleOptions, ⟨0, 2, 2⟩, [⟨⟨5, true⟩, SeverityInfo, ⟨0, 2, 2⟩, "step1"⟩,
    ⟨⟨6, true⟩, SeverityInfo, ⟨1, 4, 4⟩, "step2"⟩], false⟩

/-- An option that turns debug mode on. -/
def sampleDebugOn : LogOption := fun o => ⟨o.w, o.format, true⟩

/-- The sample world after debug mode was turned on by a second `Context` call. -/
def sampleDebugWorld : World :=
  (Context sampleOptions sampleWorld (some 0) [sampleDebugOn]).1

/-- The logger of the sample world in debug mode. -/
def sampleDebugLogger : logger :=
  ⟨⟨0, sampleFormat, true⟩, sampleLogger.keyvals, sampleLogger.entries, false⟩

/-- The sample world after a `Flush`. -/
def sampleFlushedWorld : World := Flush sampleWorld (some 0)

/-- The logger of the flushed sample world. -/
def sampleFlushedLogger : logger := ⟨sampleOptions, sampleLogger.keyvals, [], true⟩

/-- The sample world after two more buffered entries and a later `With` call. -/
def sampleLateWorld : World :=
  WithAll (log (log sampleWorld (some 0) SeverityInfo true "m1" [Value.str "x", Value.int 1]
    ⟨7, false⟩) (some 0) SeverityInfo true "m2" [Value.str "z"] ⟨8, false⟩) (some 0)
    [[Value.str "y", Value.int 2]]

/-- A fresh logger on which two entries are buffered and a pair is then added by `With`. -/
def lateWithWorld : World :=
  (With (Info (Info (Context sampleOptions World.empty none []).1 (some 0) "m1" [] ⟨1, false⟩)
    (some 0) "m2" [] ⟨2, false⟩) (some 0) [Value.str "k", Value.str "v"]).1

/-- Three `With` calls of one pair each, then an entry with the pair `x`, 1 is buffered. -/
def aliasWorld : World :=
  Info (With (With (With (Context sampleOptions World.empty none []).1 (some 0)
    [Value.str "a", Value.int 1]).1 (some 0) [Value.str "b", Value.int 2]).1 (some 0)
    [Value.str "c", Value.int 3]).1 (some 0) "m1" [Value.str "x", Value.int 1] ⟨1, false⟩

/-- The same logger after one more `With` call, with the pair `y`, 2. -/
def aliasWorldLater : World := (With aliasWorld (some 0) [Value.str "y", Value.int 2]).1

/-- The same logger after one more log call instead, with the pair `z`, 9. -/
def aliasWorldLogged : World :=
  Info aliasWorld (some 0) "m2" [Value.str "z", Value.int 9] ⟨2, false⟩

/-- Two callers share the context of the sample logger, which has two buffered entries:
one calls `Error`, the other `Info`, and the `Info` call gets the mutex between the
two critical sections of `Error`. -/
def raceSchedule : List (Ctx × Call) :=
  [(some 0, Call.Flush), (some 0, Call.Info "other" [] ⟨8, false⟩),
   (some 0, Call.log SeverityError true "boom" [] ⟨9, false⟩)]

/-! ## Heap and slice lemmas -/

theorem foldl_write {α β : Type} (f : α → β) (l : List α) (out : List β) :
    l.foldl (fun o e => o ++ [f e]) out = out ++ l.map f := by
  induction l generalizing out with
  | nil => simp
  | cons a t ih => simp [ih]

theorem arr_set (h : Heap) (p q : Nat) (a : List Value) :
    Heap.arr (h.set p a) q = if q = p ∧ p < h.length then a else h.arr q := by
  unfold Heap.arr
  by_cases hq : q = p
  · subst hq
    by_cases hp : q < h.length
    · simp [hp, List.getD_eq_getElem?_getD]
    · have hp2 : h.length ≤ q := by omega
      have hp3 : (h.set q a).length ≤ q := by simpa using hp2
      simp [hp, List.getD_eq_getElem?_getD, List.getElem?_eq_none hp2,
        List.getElem?_eq_none hp3]
  · simp [hq, List.getD_eq_getElem?_getD, List.getElem?_set, Ne.symm hq]

theorem arr_append_lt (h : Heap) (a : List Value) (q : Nat) (hq : q < h.length) :
    Heap.arr (h ++ [a]) q = h.arr q := by
  unfold Heap.arr
  simp [List.getD_eq_getElem?_getD, List.getElem?_append_left hq]

theorem arr_append_self (h : Heap) (a : List Value) :
    Heap.arr (h ++ [a]) h.length = a := by
  unfold Heap.arr
  simp [List.getD_eq_getElem?_getD]

theorem arr_ge (h : Heap) (q : Nat) (hq : h.length ≤ q) : h.arr q = [] := by
  unfold Heap.arr
  simp [List.getD_eq_getElem?_getD, List.getElem?_eq_none hq]

theorem goAppend_len (g : Nat → Nat → Nat) (h : Heap) (s : Slice) (xs : List Value) :
    (goAppend g h s xs).1.len = s.len + xs.length := by
  unfold goAppend
  split <;> rfl

theorem goAppend_read (g : Nat → Nat → Nat) (h : Heap) (s : Slice) (xs : List Value)
    (hs : SliceOK h s) :
    (goAppend g h s xs).2.read (goAppend g h s xs).1 = h.read s ++ xs := by
  obtain ⟨h1, h2⟩ := hs
  unfold goAppend
  split
  · rename_i hc
    simp only [Heap.read, arr_set]
    by_cases hp : s.ptr < h.length
    · simp only [hp, and_self, if_true]
      have hl : s.len ≤ (h.arr s.ptr).length := by omega
      rw [List.append_assoc, List.take_append_eq_append_take]
      simp [List.length_take, Nat.min_eq_left hl]
    · have : h.arr s.ptr = [] := arr_ge h _ (by omega)
      rw [this] at h2
      simp at h2
      have hx : xs = [] := by
        apply List.eq_nil_of_length_eq_zero
        omega
      simp [hp, this, hx]
  · simp only [Heap.read, arr_append_self]
    have hl : s.len ≤ (h.arr s.ptr).length := by omega
    have : s.len + xs.length = (List.take s.len (h.arr s.ptr) ++ xs).length := by
      simp [List.length_take, Nat.min_eq_left hl]
    rw [this, List.take_left]

theorem read_length (h : Heap) (s : Slice) (hs : SliceOK h s) :
    (h.read s).length = s.len := by
  unfold Heap.read
  simp [List.length_take]
  exact le_trans hs.1 hs.2

theorem goAppend_ok (g : Nat → Nat → Nat) (h : Heap) (s : Slice) (xs : List Value)
    (hs : SliceOK h s) :
    SliceOK (goAppend g h s xs).2 (goAppend g h s xs).1 := by
  have hr := read_length h s hs
  obtain ⟨h1, h2⟩ := hs
  unfold goAppend
  split
  · rename_i hc
    refine ⟨hc, ?_⟩
    simp only [arr_set]
    by_cases hp : s.ptr < h.length
    · simp only [hp, and_self, if_true]
      simp [List.length_take]
      omega
    · simp [hp]
      exact h2
  · refine ⟨?_, ?_⟩
    · simp
    · simp only [arr_append_self]
      simp [hr]
      omega

theorem logAppend_read (g : Nat → Nat → Nat) (h : Heap) (s : Slice) (xs : List Value)
    (hs : SliceOK h s) :
    (logAppend g h s xs).2.read (logAppend g h s xs).1 = padOdd (h.read s ++ xs) := by
  have h1 := goAppend_read g h s xs hs
  have h2 := goAppend_ok g h s xs hs
  have h3 := goAppend_len g h s xs
  have h4 := read_length h s hs
  unfold logAppend padOdd
  simp only [List.length_append, h4, h3]
  split
  · rw [goAppend_read g _ _ _ h2, h1]
  · exact h1

theorem lookup_some (w : World) (p : Nat) (l : logger) (hl : w.loggers[p]? = some l) :
    (some p : Ctx).bind (fun p => (w.loggers[p]?).map (fun l => (p, l))) = some (p, l) := by
  simp [hl]

theorem log_unfold (w : World) (p : Nat) (l : logger) (hl : w.loggers[p]? = some l)
    (sev : Severity) (buffer : Bool) (msg : String) (kv : List Value) (now : Time) :
    log w (some p) sev buffer msg kv now =
      if (!l.options.debug && sev == SeverityDebug) = true then w
      else
        let lw := if (l.options.debug && !l.flushed) = true then l.flush w else (l, w)
        let r := logAppend lw.2.grow lw.2.heap lw.1.keyvals kv
        let e : Entry := ⟨now.UTC, sev, r.1, msg⟩
        if (lw.1.flushed || !buffer) = true then
          { lw.2 with heap := r.2, loggers := lw.2.loggers.set p lw.1,
                      out := lw.2.out ++ [(lw.1.options.w, lw.1.options.format (r.2.view e))] }
        else
          { lw.2 with heap := r.2,
                      loggers := lw.2.loggers.set p { lw.1 with entries := lw.1.entries ++ [e] } } := by
  unfold log
  rw [lookup_some w p l hl]
  simp only [logAppend]

theorem flush_eq (l : logger) (w : World) :
    l.flush w = if l.flushed = true then (l, w)
      else ({ l with entries := [], flushed := true },
            { w with out := w.out ++ l.entries.map (render l.options w.heap) }) := by
  unfold logger.flush
  split
  · rfl
  · simp only [foldl_write]
    rfl

theorem Flush_unfold (w : World) (p : Nat) (l : logger) (hl : w.loggers[p]? = some l) :
    Flush w (some p) =
      { (l.flush w).2 with loggers := (l.flush w).2.loggers.set p (l.flush w).1 } := by
  unfold Flush
  rw [lookup_some w p l hl]

theorem set_same (ls : List logger) (p : Nat) (l : logger) (hl : ls[p]? = some l) :
    ls.set p l = ls := by
  apply List.ext_getElem?
  intro i
  by_cases hi : p = i
  · subst hi
    have : p < ls.length := by
      by_contra hc
      rw [List.getElem?_eq_none (by omega)] at hl
      cases hl
    simp [List.getElem?_set, this, hl]
  · simp [List.getElem?_set, hi]

theorem lt_of_get (ls : List logger) (p : Nat) (l : logger) (hl : ls[p]? = some l) :
    p < ls.length := by
  by_contra hc
  rw [List.getElem?_eq_none (by omega)] at hl
  cases hl

theorem get_set (ls : List logger) (p : Nat) (l l2 : logger) (hl : ls[p]? = some l) :
    (ls.set p l2)[p]? = some l2 := by
  have := lt_of_get ls p l hl
  simp [List.getElem?_set, this]

theorem Flush_flushed (w : World) (p : Nat) (l : logger) (hl : w.loggers[p]? = some l)
    (hf : l.flushed = true) : Flush w (some p) = w := by
  rw [Flush_unfold w p l hl, flush_eq]
  simp only [hf, if_true]
  rw [set_same _ _ _ hl]

theorem Flush_fresh (w : World) (p : Nat) (l : logger) (hl : w.loggers[p]? = some l)
    (hf : l.flushed = false) :
    Flush w (some p) =
      { w with loggers := w.loggers.set p { l with entries := [], flushed := true },
               out := w.out ++ l.entries.map (render l.options w.heap) } := by
  rw [Flush_unfold w p l hl, flush_eq]
  simp [hf]

theorem log_dropped (w : World) (p : Nat) (l : logger) (hl : w.loggers[p]? = some l)
    (hd : l.options.debug = false)
    (buffer : Bool) (msg : String) (kv : List Value) (now : Time) :
    log w (some p) SeverityDebug buffer msg kv now = w := by
  rw [log_unfold w p l hl]
  simp [hd]

theorem log_eq_buf (w : World) (p : Nat) (l : logger) (hl : w.loggers[p]? = some l)
    (sev : Severity) (msg : String) (kv : List Value) (now : Time)
    (hd : l.options.debug = false) (hs : sev ≠ SeverityDebug) (hf : l.flushed = false) :
    log w (some p) sev true msg kv now =
      { w with heap := (logAppend w.grow w.heap l.keyvals kv).2,
               loggers := w.loggers.set p { l with entries := l.entries ++
                 [⟨now.UTC, sev, (logAppend w.grow w.heap l.keyvals kv).1, msg⟩] } } := by
  rw [log_unfold w p l hl]
  simp [hd, hs, hf]

theorem log_eq_imm (w : World) (p : Nat) (l : logger) (hl : w.loggers[p]? = some l)
    (sev : Severity) (buffer : Bool) (msg : String) (kv : List Value) (now : Time)
    (hok : SliceOK w.heap l.keyvals)
    (hs : ¬ (l.options.debug = false ∧ sev = SeverityDebug))
    (hi : (l.flushed || l.options.debug || !buffer) = true) :
    log w (some p) sev buffer msg kv now =
      { w with heap := (logAppend w.grow w.heap l.keyvals kv).2,
               loggers := w.loggers.set p
                 (if (l.options.debug && !l.flushed) = true
                  then { l with entries := [], flushed := true } else l),
               out := w.out ++
                 (if (l.options.debug && !l.flushed) = true
                  then l.entries.map (render l.options w.heap) else []) ++
                 [(l.options.w, l.options.format
                    ⟨now.UTC, sev, padOdd (w.heap.read l.keyvals ++ kv), msg⟩)] } := by
  have hr := logAppend_read w.grow w.heap l.keyvals kv hok
  rw [log_unfold w p l hl, flush_eq]
  cases hdb : l.options.debug <;> cases hfl : l.flushed <;> cases buffer <;>
    simp_all [Heap.view]

theorem With_unfold (w : World) (p : Nat) (l : logger) (hl : w.loggers[p]? = some l)
    (kv : List Value) :
    With w (some p) kv =
      ({ w with heap := (goAppend w.grow w.heap l.keyvals (padOdd kv)).2,
                loggers := w.loggers.set p
                  { l with keyvals := (goAppend w.grow w.heap l.keyvals (padOdd kv)).1 } },
        some p) := by
  unfold With
  rw [lookup_some w p l hl]
  rfl

theorem lookup_none (w : World) (p : Nat) (hl : w.loggers[p]? = none) :
    (some p : Ctx).bind (fun p => (w.loggers[p]?).map (fun l => (p, l))) = none := by
  simp [hl]

theorem log_loggers (w : World) (p : Nat) (l : logger) (hl : w.loggers[p]? = some l)
    (sev : Severity) (buffer : Bool) (msg : String) (kv : List Value) (now : Time) :
    (log w (some p) sev buffer msg kv now).loggers =
      w.loggers.set p (logResult l sev buffer
        ⟨now.UTC, sev, (logAppend w.grow w.heap l.keyvals kv).1, msg⟩) := by
  rw [log_unfold w p l hl, flush_eq]
  unfold logResult
  split
  · exact (set_same _ _ _ hl).symm
  · cases hd : l.options.debug <;> cases hf : l.flushed <;> cases buffer <;> simp
    all_goals (cases l; simp_all)

theorem log_none (w : World) (p : Nat) (hl : w.loggers[p]? = none)
    (sev : Severity) (buffer : Bool) (msg : String) (kv : List Value) (now : Time) :
    log w (some p) sev buffer msg kv now = w := by
  unfold log
  rw [lookup_none w p hl]

theorem latched_loggers_set (ls : List logger) (p q : Nat) (l lq l2 : logger)
    (hl : ls[p]? = some l) (hf : l.flushed = true) (he : l.entries = [])
    (hq : ls[q]? = some lq)
    (h2 : lq.flushed = true → lq.entries = [] → l2.flushed = true ∧ l2.entries = []) :
    ∃ l3, (ls.set q l2)[p]? = some l3 ∧ l3.flushed = true ∧ l3.entries = [] := by
  by_cases hpq : q = p
  · subst hpq
    rw [hq] at hl
    cases hl
    exact ⟨l2, get_set _ _ _ _ hq, h2 hf he⟩
  · exact ⟨l, by simp [List.getElem?_set, hpq, hl], hf, he⟩

theorem logResult_latched (l : logger) (sev : Severity) (buffer : Bool) (e : Entry)
    (hf : l.flushed = true) (he : l.entries = []) :
    (logResult l sev buffer e).flushed = true ∧ (logResult l sev buffer e).entries = [] := by
  unfold logResult
  split
  · exact ⟨hf, he⟩
  · split
    · exact ⟨rfl, rfl⟩
    · simp [hf, he]

theorem latched_log (w : World) (p : Nat) (h : Latched w p) (ctx : Ctx) (sev : Severity)
    (buffer : Bool) (msg : String) (kv : List Value) (now : Time) :
    Latched (log w ctx sev buffer msg kv now) p := by
  cases ctx with
  | none => exact h
  | some q =>
    cases hq : w.loggers[q]? with
    | none =>
      rw [log_none w q hq]
      exact h
    | some lq =>
      obtain ⟨l, hl, hf, he⟩ := h
      unfold Latched
      rw [log_loggers w q lq hq]
      exact latched_loggers_set _ p q l lq _ hl hf he hq
        (fun h1 h2 => logResult_latched lq sev buffer _ h1 h2)

theorem Flush_none (w : World) (p : Nat) (hl : w.loggers[p]? = none) :
    Flush w (some p) = w := by
  unfold Flush
  rw [lookup_none w p hl]

theorem Flush_loggers (w : World) (p : Nat) (l : logger) (hl : w.loggers[p]? = some l) :
    (Flush w (some p)).loggers =
      w.loggers.set p (if l.flushed = true then l else ⟨l.options, l.keyvals, [], true⟩) := by
  cases hf : l.flushed with
  | true =>
    rw [Flush_flushed w p l hl hf]
    simp [set_same _ _ _ hl]
  | false =>
    rw [Flush_fresh w p l hl hf]
    simp

theorem latched_Flush (w : World) (p : Nat) (h : Latched w p) (ctx : Ctx) :
    Latched (Flush w ctx) p := by
  cases ctx with
  | none => exact h
  | some q =>
    cases hq : w.loggers[q]? with
    | none =>
      rw [Flush_none w q hq]
      exact h
    | some lq =>
      obtain ⟨l, hl, hf, he⟩ := h
      unfold Latched
      rw [Flush_loggers w q lq hq]
      refine latched_loggers_set _ p q l lq _ hl hf he hq ?_
      intro h1 h2
      simp [h1, h2]

theorem latched_With (w : World) (p : Nat) (h : Latched w p) (ctx : Ctx) (kv : List Value) :
    Latched (With w ctx kv).1 p := by
  cases ctx with
  | none => exact h
  | some q =>
    cases hq : w.loggers[q]? with
    | none =>
      have : With w (some q) kv = (w, some q) := by
        unfold With
        rw [lookup_none w q hq]
      rw [this]
      exact h
    | some lq =>
      obtain ⟨l, hl, hf, he⟩ := h
      rw [With_unfold w q lq hq]
      exact latched_loggers_set _ p q l lq _ hl hf he hq (fun h1 h2 => ⟨h1, h2⟩)

theorem latched_Context (dflt : options) (w : World) (p : Nat) (h : Latched w p) (ctx : Ctx)
    (opts : List LogOption) :
    Latched (Context dflt w ctx opts).1 p := by
  obtain ⟨l, hl, hf, he⟩ := h
  have hnew : Latched (⟨w.grow, w.heap, w.loggers ++
      [⟨opts.foldl (fun o opt => opt o) dflt, Slice.nil, [], false⟩], w.out⟩ : World) p := by
    refine ⟨l, ?_, hf, he⟩
    have := lt_of_get _ _ _ hl
    simp [List.getElem?_append_left this, hl]
  cases ctx with
  | none => exact hnew
  | some q =>
    cases hq : w.loggers[q]? with
    | none =>
      have : Context dflt w (some q) opts = (⟨w.grow, w.heap, w.loggers ++
          [⟨opts.foldl (fun o opt => opt o) dflt, Slice.nil, [], false⟩], w.out⟩,
          some w.loggers.length) := by
        unfold Context
        rw [lookup_none w q hq]
      rw [this]
      exact hnew
    | some lq =>
      have : Context dflt w (some q) opts =
          (⟨w.grow, w.heap, w.loggers.set q
            ⟨opts.foldl (fun o opt => opt o) lq.options, lq.keyvals, lq.entries, lq.flushed⟩,
            w.out⟩, some q) := by
        unfold Context
        rw [lookup_some w q lq hq]
      rw [this]
      exact latched_loggers_set _ p q l lq _ hl hf he hq (fun h1 h2 => ⟨h1, h2⟩)

theorem latched_run (dflt : options) (w : World) (p : Nat) (h : Latched w p) (ctx : Ctx)
    (c : Call) : Latched (c.run dflt w ctx).1 p := by
  cases c with
  | Context opts => exact latched_Context dflt w p h ctx opts
  | With kv => exact latched_With w p h ctx kv
  | Debug msg kv now => exact latched_log w p h ctx _ _ msg kv now
  | Print msg kv now => exact latched_log w p h ctx _ _ msg kv now
  | Info msg kv now => exact latched_log w p h ctx _ _ msg kv now
  | Error msg kv now => exact latched_log _ p (latched_Flush w p h ctx) ctx _ _ msg kv now
  | Flush => exact latched_Flush w p h ctx
  | log sev buffer msg kv now => exact latched_log w p h ctx sev buffer msg kv now

theorem latched_runAll (dflt : options) (cs : List (Ctx × Call)) (w : World) (p : Nat)
    (h : Latched w p) : Latched (runAll dflt w cs) p := by
  induction cs generalizing w with
  | nil => exact h
  | cons c t ih => exact ih _ (latched_run dflt w p h c.1 c.2)

theorem padOdd_even (xs : List Value) : (padOdd xs).length % 2 = 0 := by
  unfold padOdd
  split
  · simp
    omega
  · omega

theorem padOdd_append (xs ys : List Value) (hx : xs.length % 2 = 0) :
    padOdd (xs ++ ys) = xs ++ padOdd ys := by
  unfold padOdd
  have : (xs ++ ys).length % 2 = ys.length % 2 := by
    simp
    omega
  rw [this]
  split <;> simp

theorem WithAll_cons (w : World) (ctx : Ctx) (kv : List Value) (kvs : List (List Value)) :
    WithAll w ctx (kv :: kvs) = WithAll (With w ctx kv).1 ctx kvs := rfl

theorem WithAll_spec (kvs : List (List Value)) (w : World) (p : Nat) (l : logger)
    (hl : w.loggers[p]? = some l) (hok : SliceOK w.heap l.keyvals) :
    ∃ s, (WithAll w (some p) kvs).loggers[p]? = some ⟨l.options, s, l.entries, l.flushed⟩
      ∧ SliceOK (WithAll w (some p) kvs).heap s
      ∧ (WithAll w (some p) kvs).heap.read s =
          w.heap.read l.keyvals ++ (kvs.map padOdd).flatten
      ∧ (WithAll w (some p) kvs).out = w.out
      ∧ (WithAll w (some p) kvs).grow = w.grow := by
  induction kvs generalizing w l with
  | nil => exact ⟨l.keyvals, by simpa [WithAll] using hl, hok, by simp [WithAll], rfl, rfl⟩
  | cons kv t ih =>
    rw [WithAll_cons]
    have hW := With_unfold w p l hl kv
    have hl1 : (With w (some p) kv).1.loggers[p]? =
        some ⟨l.options, (goAppend w.grow w.heap l.keyvals (padOdd kv)).1, l.entries, l.flushed⟩ := by
      rw [hW]
      exact get_set _ _ _ _ hl
    have hh1 : (With w (some p) kv).1.heap = (goAppend w.grow w.heap l.keyvals (padOdd kv)).2 := by
      rw [hW]
    have ho1 : (With w (some p) kv).1.out = w.out := by rw [hW]
    have hg1 : (With w (some p) kv).1.grow = w.grow := by rw [hW]
    have hok1 : SliceOK (With w (some p) kv).1.heap
        (goAppend w.grow w.heap l.keyvals (padOdd kv)).1 := by
      rw [hh1]
      exact goAppend_ok _ _ _ _ hok
    obtain ⟨s, h1, h2, h3, h4, h5⟩ := ih (With w (some p) kv).1 _ hl1 hok1
    refine ⟨s, h1, h2, ?_, by rw [h4, ho1], by rw [h5, hg1]⟩
    rw [h3, hh1]
    simp only [goAppend_read _ _ _ _ hok, List.map_cons, List.flatten_cons, List.append_assoc]

theorem flatten_padOdd_even (kvs : List (List Value)) :
    ((kvs.map padOdd).flatten).length % 2 = 0 := by
  induction kvs with
  | nil => rfl
  | cons kv t ih =>
    have := padOdd_even kv
    simp only [List.map_cons, List.flatten_cons, List.length_append]
    omega

theorem goAppend_arr_length (g : Nat → Nat → Nat) (h : Heap) (s : Slice) (xs : List Value)
    (hs : SliceOK h s) (q : Nat) :
    (h.arr q).length ≤ ((goAppend g h s xs).2.arr q).length := by
  obtain ⟨h1, h2⟩ := hs
  unfold goAppend
  split
  · rename_i hc
    simp only [arr_set]
    split
    · rename_i hq
      rw [hq.1]
      simp [List.length_take]
      omega
    · exact le_refl _
  · by_cases hq : q < h.length
    · rw [arr_append_lt h _ q hq]
    · rw [arr_ge h q (by omega)]
      simp

theorem goAppend_arr_take (g : Nat → Nat → Nat) (h : Heap) (s : Slice) (xs : List Value)
    (hs : SliceOK h s) (q k : Nat) (hk : k ≤ (h.arr q).length) (hq : q = s.ptr → k ≤ s.len) :
    ((goAppend g h s xs).2.arr q).take k = (h.arr q).take k := by
  obtain ⟨h1, h2⟩ := hs
  unfold goAppend
  split
  · rename_i hc
    simp only [arr_set]
    split
    · rename_i hq2
      have hks := hq hq2.1
      rw [hq2.1]
      rw [List.append_assoc, List.take_append_eq_append_take]
      have hl : s.len ≤ (h.arr s.ptr).length := by omega
      simp [List.length_take, Nat.min_eq_left hl, List.take_take, Nat.min_eq_left hks]
      omega
    · rfl
  · by_cases hq2 : q < h.length
    · rw [arr_append_lt h _ q hq2]
    · rw [arr_ge h q (by omega)] at hk
      simp at hk
      subst hk
      simp

theorem goAppend_ptr (g : Nat → Nat → Nat) (h : Heap) (s : Slice) (xs : List Value)
    (q k : Nat) (hk : k ≤ (h.arr q).length) (hq : q = s.ptr → k ≤ s.len) :
    q = (goAppend g h s xs).1.ptr → k ≤ (goAppend g h s xs).1.len := by
  unfold goAppend
  split
  · intro hq2
    have := hq hq2
    simp
    omega
  · intro hq2
    simp at hq2
    rw [arr_ge h q (by omega)] at hk
    simp at hk
    omega

theorem goAppend_ok_other (g : Nat → Nat → Nat) (h : Heap) (s t : Slice) (xs : List Value)
    (hs : SliceOK h s) (ht : SliceOK h t) : SliceOK (goAppend g h s xs).2 t :=
  ⟨ht.1, le_trans ht.2 (goAppend_arr_length g h s xs hs t.ptr)⟩

theorem goAppend_pinned (g : Nat → Nat → Nat) (h : Heap) (s e : Slice) (xs P : List Value)
    (hs : SliceOK h s) (hp : Pinned h s e P) :
    Pinned (goAppend g h s xs).2 (goAppend g h s xs).1 e P
    ∧ Pinned (goAppend g h s xs).2 s e P := by
  obtain ⟨p1, p2, p3, p4⟩ := hp
  have hk : P.length ≤ (h.arr e.ptr).length := le_trans p1 p2
  have hA := goAppend_arr_length g h s xs hs e.ptr
  have hB := goAppend_arr_take g h s xs hs e.ptr P.length hk p3
  have hC := goAppend_ptr g h s xs e.ptr P.length hk p3
  exact ⟨⟨p1, le_trans p2 hA, hC, by rw [hB, p4]⟩, ⟨p1, le_trans p2 hA, p3, by rw [hB, p4]⟩⟩

theorem logAppend_ok_other (g : Nat → Nat → Nat) (h : Heap) (s t : Slice) (xs : List Value)
    (hs : SliceOK h s) (ht : SliceOK h t) : SliceOK (logAppend g h s xs).2 t := by
  unfold logAppend
  split
  · exact goAppend_ok_other g _ _ t _ (goAppend_ok g h s xs hs) (goAppend_ok_other g h s t xs hs ht)
  · exact goAppend_ok_other g h s t xs hs ht

theorem logAppend_ok (g : Nat → Nat → Nat) (h : Heap) (s : Slice) (xs : List Value)
    (hs : SliceOK h s) : SliceOK (logAppend g h s xs).2 (logAppend g h s xs).1 := by
  unfold logAppend
  split
  · exact goAppend_ok g _ _ _ (goAppend_ok g h s xs hs)
  · exact goAppend_ok g h s xs hs

theorem logAppend_pinned (g : Nat → Nat → Nat) (h : Heap) (s e : Slice) (xs P : List Value)
    (hs : SliceOK h s) (hp : Pinned h s e P) :
    Pinned (logAppend g h s xs).2 s e P := by
  have h1 := goAppend_pinned g h s e xs P hs hp
  unfold logAppend
  split
  · have h2 := goAppend_pinned g _ _ e [Value.null] P (goAppend_ok g h s xs hs) h1.1
    exact ⟨h2.2.1, h2.2.2.1, hp.2.2.1, h2.2.2.2.2⟩
  · exact h1.2

theorem pinned_self (h : Heap) (s : Slice) (hs : SliceOK h s) : Pinned h s s (h.read s) := by
  have hr := read_length h s hs
  refine ⟨by omega, le_trans hs.1 hs.2, fun _ => by omega, ?_⟩
  unfold Heap.read
  unfold Heap.read at hr
  rw [hr]

theorem read_of_pinned_self (h h2 : Heap) (s : Slice) (hs : SliceOK h s)
    (hp : Pinned h2 s s (h.read s)) : h2.read s = h.read s := by
  have hr := read_length h s hs
  obtain ⟨_, _, _, p4⟩ := hp
  rw [hr] at p4
  exact p4

theorem logAppend_keeps_read (g : Nat → Nat → Nat) (h : Heap) (s : Slice) (xs : List Value)
    (hs : SliceOK h s) : (logAppend g h s xs).2.read s = h.read s :=
  read_of_pinned_self h _ s hs (logAppend_pinned g h s s xs _ hs (pinned_self h s hs))

theorem take_padOdd (P xs : List Value) : (padOdd (P ++ xs)).take P.length = P := by
  unfold padOdd
  split <;> simp [List.take_append_eq_append_take]

theorem logAppend_creates_pinned (g : Nat → Nat → Nat) (h : Heap) (s : Slice) (xs : List Value)
    (hs : SliceOK h s) :
    Pinned (logAppend g h s xs).2 s (logAppend g h s xs).1 (h.read s)
    ∧ (logAppend g h s xs).1.len = (padOdd (h.read s ++ xs)).length := by
  have hr := logAppend_read g h s xs hs
  have hok := logAppend_ok g h s xs hs
  have hlen := read_length _ _ hok
  have hP := read_length h s hs
  rw [hr] at hlen
  have hle : (h.read s).length ≤ (padOdd (h.read s ++ xs)).length := by
    unfold padOdd
    split <;> simp
  refine ⟨⟨by omega, le_trans hok.1 hok.2, fun _ => by omega, ?_⟩, hlen.symm⟩
  have ht := take_padOdd (h.read s) xs
  rw [← hr] at ht
  unfold Heap.read at ht
  rw [List.take_take] at ht
  have : min (List.take s.len (h.arr s.ptr)).length (logAppend g h s xs).1.len
      = (List.take s.len (h.arr s.ptr)).length := by
    apply Nat.min_eq_left
    unfold Heap.read at hle hlen
    omega
  rw [this] at ht
  exact ht

theorem view_of_pinned (h : Heap) (s e : Slice) (P : List Value) (hp : Pinned h s e P) :
    (h.read e).take P.length = P ∧ (h.read e).length = e.len := by
  obtain ⟨p1, p2, _, p4⟩ := hp
  unfold Heap.read
  refine ⟨?_, ?_⟩
  · rw [List.take_take, Nat.min_eq_left p1]
    exact p4
  · simp [List.length_take]
    exact p2

theorem log_buf_spec (w : World) (p : Nat) (l : logger) (hl : w.loggers[p]? = some l)
    (sev : Severity) (msg : String) (kv : List Value) (now : Time)
    (hok : SliceOK w.heap l.keyvals)
    (hd : l.options.debug = false) (hs : sev ≠ SeverityDebug) (hf : l.flushed = false) :
    ∃ e : Entry, e.Time = now.UTC ∧ e.Severity = sev ∧ e.Message = msg
      ∧ e.KeyVals.len = (padOdd (w.heap.read l.keyvals ++ kv)).length
      ∧ (log w (some p) sev true msg kv now).loggers[p]? =
          some ⟨l.options, l.keyvals, l.entries ++ [e], l.flushed⟩
      ∧ (log w (some p) sev true msg kv now).out = w.out
      ∧ SliceOK (log w (some p) sev true msg kv now).heap l.keyvals
      ∧ (log w (some p) sev true msg kv now).heap.read l.keyvals = w.heap.read l.keyvals
      ∧ Pinned (log w (some p) sev true msg kv now).heap l.keyvals e.KeyVals
          (w.heap.read l.keyvals)
      ∧ (∀ e0 P, Pinned w.heap l.keyvals e0 P →
          Pinned (log w (some p) sev true msg kv now).heap l.keyvals e0 P) := by
  have hL := log_eq_buf w p l hl sev msg kv now hd hs hf
  have hc := logAppend_creates_pinned w.grow w.heap l.keyvals kv hok
  refine ⟨⟨now.UTC, sev, (logAppend w.grow w.heap l.keyvals kv).1, msg⟩, rfl, rfl, rfl, hc.2,
    ?_, ?_, ?_, ?_, ?_, ?_⟩
  · rw [hL]
    exact get_set _ _ _ _ hl
  · rw [hL]
  · rw [hL]
    exact logAppend_ok_other _ _ _ _ _ hok hok
  · rw [hL]
    exact logAppend_keeps_read _ _ _ _ hok
  · rw [hL]
    exact hc.1
  · intro e0 P hp
    rw [hL]
    exact logAppend_pinned _ _ _ _ _ _ hok hp

theorem WithAll_pinned (kvs : List (List Value)) (w : World) (p : Nat) (l : logger)
    (hl : w.loggers[p]? = some l) (hok : SliceOK w.heap l.keyvals) :
    ∃ s, (WithAll w (some p) kvs).loggers[p]? = some ⟨l.options, s, l.entries, l.flushed⟩
      ∧ (WithAll w (some p) kvs).out = w.out
      ∧ (∀ e P, Pinned w.heap l.keyvals e P → Pinned (WithAll w (some p) kvs).heap s e P) := by
  induction kvs generalizing w l with
  | nil => exact ⟨l.keyvals, by simpa [WithAll] using hl, rfl, fun e P hp => hp⟩
  | cons kv t ih =>
    rw [WithAll_cons]
    have hW := With_unfold w p l hl kv
    have hl1 : (With w (some p) kv).1.loggers[p]? =
        some ⟨l.options, (goAppend w.grow w.heap l.keyvals (padOdd kv)).1, l.entries, l.flushed⟩ := by
      rw [hW]
      exact get_set _ _ _ _ hl
    have hh1 : (With w (some p) kv).1.heap = (goAppend w.grow w.heap l.keyvals (padOdd kv)).2 := by
      rw [hW]
    have ho1 : (With w (some p) kv).1.out = w.out := by rw [hW]
    have hok1 : SliceOK (With w (some p) kv).1.heap
        (goAppend w.grow w.heap l.keyvals (padOdd kv)).1 := by
      rw [hh1]
      exact goAppend_ok _ _ _ _ hok
    obtain ⟨s, h1, h2, h3⟩ := ih (With w (some p) kv).1 _ hl1 hok1
    refine ⟨s, h1, by rw [h2, ho1], ?_⟩
    intro e P hp
    apply h3
    rw [hh1]
    exact (goAppend_pinned _ _ _ _ _ _ hok hp).1

theorem log_heap (w : World) (p : Nat) (l : logger) (hl : w.loggers[p]? = some l)
    (sev : Severity) (buffer : Bool) (msg : String) (kv : List Value) (now : Time) :
    (log w (some p) sev buffer msg kv now).heap =
      if (!l.options.debug && sev == SeverityDebug) = true then w.heap
      else (logAppend w.grow w.heap l.keyvals kv).2 := by
  rw [log_unfold w p l hl, flush_eq]
  split
  · rfl
  · cases hd : l.options.debug <;> cases hf : l.flushed <;> cases buffer <;> simp [hd, hf]

theorem consistent_update (w : World) (q : Nat) (lq l2 : logger) (h2 : Heap)
    (g : Nat → Nat → Nat) (o : List (Nat × Bytes))
    (hc : Consistent w) (hq : w.loggers[q]? = some lq)
    (hmono : ∀ t, SliceOK w.heap t → SliceOK h2 t)
    (h2ok : SliceOK h2 l2.keyvals) (h2inv : l2.flushed = true → l2.entries = []) :
    Consistent ⟨g, h2, w.loggers.set q l2, o⟩ := by
  intro p l hl
  by_cases hpq : q = p
  · subst hpq
    have : (w.loggers.set q l2)[q]? = some l2 := get_set _ _ _ _ hq
    simp only at hl
    rw [this] at hl
    cases hl
    exact ⟨h2ok, h2inv⟩
  · have : (w.loggers.set q l2)[p]? = w.loggers[p]? := by
      simp [List.getElem?_set, hpq]
    simp only at hl
    rw [this] at hl
    exact ⟨hmono _ (hc p l hl).1, (hc p l hl).2⟩

theorem consistent_With (w : World) (hc : Consistent w) (ctx : Ctx) (kv : List Value) :
    Consistent (With w ctx kv).1 := by
  cases ctx with
  | none => exact hc
  | some q =>
    cases hq : w.loggers[q]? with
    | none =>
      have : With w (some q) kv = (w, some q) := by
        unfold With
        rw [lookup_none w q hq]
      rw [this]
      exact hc
    | some lq =>
      rw [With_unfold w q lq hq]
      have h1 := (hc q lq hq).1
      exact consistent_update w q lq _ _ _ _ hc hq
        (fun t ht => goAppend_ok_other _ _ _ t _ h1 ht) (goAppend_ok _ _ _ _ h1) (hc q lq hq).2

theorem consistent_Flush (w : World) (hc : Consistent w) (ctx : Ctx) :
    Consistent (Flush w ctx) := by
  cases ctx with
  | none => exact hc
  | some q =>
    cases hq : w.loggers[q]? with
    | none =>
      rw [Flush_none w q hq]
      exact hc
    | some lq =>
      cases hf : lq.flushed with
      | true =>
        rw [Flush_flushed w q lq hq hf]
        exact hc
      | false =>
        rw [Flush_fresh w q lq hq hf]
        exact consistent_update w q lq _ _ _ _ hc hq (fun _ ht => ht) (hc q lq hq).1 (fun _ => rfl)

theorem logResult_inv (l : logger) (sev : Severity) (buffer : Bool) (e : Entry)
    (hi : l.flushed = true → l.entries = []) :
    (logResult l sev buffer e).keyvals = l.keyvals
    ∧ ((logResult l sev buffer e).flushed = true → (logResult l sev buffer e).entries = []) := by
  unfold logResult
  split
  · exact ⟨rfl, hi⟩
  · split
    · exact ⟨rfl, fun _ => rfl⟩
    · split
      · exact ⟨rfl, hi⟩
      · rename_i h1
        refine ⟨rfl, ?_⟩
        intro hf
        simp only at hf
        simp [hf] at h1

theorem consistent_log (w : World) (hc : Consistent w) (ctx : Ctx) (sev : Severity)
    (buffer : Bool) (msg : String) (kv : List Value) (now : Time) :
    Consistent (log w ctx sev buffer msg kv now) := by
  cases ctx with
  | none => exact hc
  | some q =>
    cases hq : w.loggers[q]? with
    | none =>
      rw [log_none w q hq]
      exact hc
    | some lq =>
      have hL := log_loggers w q lq hq sev buffer msg kv now
      have hH := log_heap w q lq hq sev buffer msg kv now
      have h1 := (hc q lq hq).1
      have hR := logResult_inv lq sev buffer
        ⟨now.UTC, sev, (logAppend w.grow w.heap lq.keyvals kv).1, msg⟩ (hc q lq hq).2
      have hmono : ∀ t, SliceOK w.heap t →
          SliceOK (log w (some q) sev buffer msg kv now).heap t := by
        intro t ht
        rw [hH]
        split
        · exact ht
        · exact logAppend_ok_other _ _ _ t _ h1 ht
      have key := consistent_update w q lq _ (log w (some q) sev buffer msg kv now).heap
        (log w (some q) sev buffer msg kv now).grow (log w (some q) sev buffer msg kv now).out
        hc hq hmono (by rw [hR.1]; exact hmono _ h1) hR.2
      rw [← hL] at key
      exact key

theorem consistent_Context (dflt : options) (w : World) (hc : Consistent w) (ctx : Ctx)
    (opts : List LogOption) : Consistent (Context dflt w ctx opts).1 := by
  have hnew : Consistent (⟨w.grow, w.heap, w.loggers ++
      [⟨opts.foldl (fun o opt => opt o) dflt, Slice.nil, [], false⟩], w.out⟩ : World) := by
    intro p l hl
    simp only at hl
    by_cases hp : p < w.loggers.length
    · rw [List.getElem?_append_left hp] at hl
      exact hc p l hl
    · by_cases hp2 : p = w.loggers.length
      · subst hp2
        simp at hl
        subst hl
        exact ⟨⟨le_refl _, Nat.zero_le _⟩, fun h => by cases h⟩
      · rw [List.getElem?_eq_none (by simp; omega)] at hl
        cases hl
  cases ctx with
  | none => exact hnew
  | some q =>
    cases hq : w.loggers[q]? with
    | none =>
      have : Context dflt w (some q) opts = (⟨w.grow, w.heap, w.loggers ++
          [⟨opts.foldl (fun o opt => opt o) dflt, Slice.nil, [], false⟩], w.out⟩,
          some w.loggers.length) := by
        unfold Context
        rw [lookup_none w q hq]
      rw [this]
      exact hnew
    | some lq =>
      have : Context dflt w (some q) opts =
          (⟨w.grow, w.heap, w.loggers.set q
            ⟨opts.foldl (fun o opt => opt o) lq.options, lq.keyvals, lq.entries, lq.flushed⟩,
            w.out⟩, some q) := by
        unfold Context
        rw [lookup_some w q lq hq]
      rw [this]
      exact consistent_update w q lq _ _ _ _ hc hq (fun _ ht => ht) (hc q lq hq).1 (hc q lq hq).2

theorem consistent_run (dflt : options) (w : World) (hc : Consistent w) (ctx : Ctx)
    (c : Call) : Consistent (c.run dflt w ctx).1 := by
  cases c with
  | Context opts => exact consistent_Context dflt w hc ctx opts
  | With kv => exact consistent_With w hc ctx kv
  | Debug msg kv now => exact consistent_log w hc ctx _ _ msg kv now
  | Print msg kv now => exact consistent_log w hc ctx _ _ msg kv now
  | Info msg kv now => exact consistent_log w hc ctx _ _ msg kv now
  | Error msg kv now => exact consistent_log _ (consistent_Flush w hc ctx) ctx _ _ msg kv now
  | Flush => exact consistent_Flush w hc ctx
  | log sev buffer msg kv now => exact consistent_log w hc ctx sev buffer msg kv now

/-- Every state reached from a world without loggers, by any sequence of calls on any
contexts, is consistent: the hypotheses the theorems below make on a state hold of every
state the program can be in. -/
theorem consistent_reachable (dflt : options) (g : Nat → Nat → Nat) (cs : List (Ctx × Call)) :
    Consistent (runAll dflt ⟨g, [], [], []⟩ cs) := by
  have gen : ∀ (cs : List (Ctx × Call)) (w : World), Consistent w →
      Consistent (runAll dflt w cs) := by
    intro cs
    induction cs with
    | nil => exact fun w h => h
    | cons c t ih => exact fun w h => ih _ (consistent_run dflt w h c.1 c.2)
  apply gen
  intro p l hl
  simp at hl

theorem set_append_replicate {α : Type} (A : List α) (d : Nat) (x y : α) :
    (A ++ List.replicate (d + 1) x).set A.length y = A ++ [y] ++ List.replicate d x := by
  induction A with
  | nil => simp [List.replicate_succ]
  | cons a t ih => simp [ih]

theorem parse_loop_inv (kv : List Value) (fuel : Nat) :
    ∀ k, k ≤ kv.length / 2 → kv.length / 2 - k + 1 ≤ fuel →
      KeyVals.Parse.loop kv fuel (2 * k)
        ((List.range k).map (fun j => keyOf (kv.getD (2 * j) Value.null))
          ++ List.replicate (kv.length / 2 - k) "")
        ((List.range k).map (fun j => kv.getD (2 * j + 1) Value.null)
          ++ List.replicate (kv.length / 2 - k) Value.null)
      = if kv.length % 2 = 0 then Outcome.ok (specKeys kv, specVals kv) else Outcome.panic := by
  induction fuel with
  | zero =>
    intro k _ hf
    omega
  | succ fuel ih =>
    intro k hk hf
    unfold KeyVals.Parse.loop
    by_cases hlt : k < kv.length / 2
    · have h1 : 2 * k < kv.length := by omega
      have h2 : 2 * k + 1 < kv.length := by omega
      have hd : kv.length / 2 - k = (kv.length / 2 - (k + 1)) + 1 := by omega
      have hk2 : 2 * k / 2 = k := by omega
      have ih2 := ih (k + 1) (by omega) (by omega)
      rw [List.range_succ, List.map_append, List.map_append] at ih2
      simp only [List.map_cons, List.map_nil] at ih2
      rw [hd]
      simp only [h1, if_true, List.getElem?_eq_getElem h1, List.getElem?_eq_getElem h2, hk2,
        List.length_append, List.length_map, List.length_range, List.length_replicate]
      have hk3 : k < k + (kv.length / 2 - (k + 1) + 1) := by omega
      simp only [hk3, if_true]
      have e1 := set_append_replicate
        ((List.range k).map (fun j => keyOf (kv.getD (2 * j) Value.null)))
        (kv.length / 2 - (k + 1)) "" (keyOf kv[2 * k])
      have e2 := set_append_replicate
        ((List.range k).map (fun j => kv.getD (2 * j + 1) Value.null))
        (kv.length / 2 - (k + 1)) Value.null kv[2 * k + 1]
      simp only [List.length_map, List.length_range] at e1 e2
      rw [e1, e2]
      have g1 : kv.getD (2 * k) Value.null = kv[2 * k] := by
        simp [List.getD_eq_getElem?_getD, List.getElem?_eq_getElem h1]
      have g2 : kv.getD (2 * k + 1) Value.null = kv[2 * k + 1] := by
        simp [List.getD_eq_getElem?_getD, List.getElem?_eq_getElem h2]
      rw [g1, g2] at ih2
      have hi : 2 * (k + 1) = 2 * k + 2 := by omega
      rw [hi] at ih2
      exact ih2
    · have hkm : k = kv.length / 2 := by omega
      subst hkm
      by_cases hev : kv.length % 2 = 0
      · have h1 : ¬ 2 * (kv.length / 2) < kv.length := by omega
        simp [h1, hev, specKeys, specVals]
      · have h1 : 2 * (kv.length / 2) < kv.length := by omega
        have hk2 : 2 * (kv.length / 2) / 2 = kv.length / 2 := by omega
        simp [h1, hev, hk2, List.getElem?_eq_getElem h1]

theorem parse_eq (kv : List Value) :
    KeyVals.Parse kv =
      if kv.length % 2 = 0 then Outcome.ok (specKeys kv, specVals kv) else Outcome.panic := by
  unfold KeyVals.Parse
  split
  · rename_i h0
    simp [h0, specKeys, specVals]
  · have := parse_loop_inv kv (kv.length + 1) 0 (Nat.zero_le _) (by omega)
    simpa using this

theorem specKeys_length (kv : List Value) : (specKeys kv).length = kv.length / 2 := by
  simp [specKeys]

theorem specVals_length (kv : List Value) : (specVals kv).length = kv.length / 2 := by
  simp [specVals]

theorem specVals_get (kv : List Value) (i : Nat) (hi : i < kv.length / 2) :
    (specVals kv)[i]? = kv[2 * i + 1]? := by
  have h2 : 2 * i + 1 < kv.length := by omega
  simp [specVals, List.getElem?_map, List.getElem?_range hi, List.getD_eq_getElem?_getD,
    List.getElem?_eq_getElem h2]

theorem specKeys_get (kv : List Value) (i : Nat) (hi : i < kv.length / 2) :
    (specKeys kv)[i]? = (kv[2 * i]?).map keyOf := by
  have h2 : 2 * i < kv.length := by omega
  simp [specKeys, List.getElem?_map, List.getElem?_range hi, List.getD_eq_getElem?_getD,
    List.getElem?_eq_getElem h2]

theorem padOdd_eq (kv : List Value) :
    padOdd kv = kv ++ (if kv.length % 2 = 1 then [Value.null] else []) := by
  unfold padOdd
  by_cases h : kv.length % 2 = 1
  · simp [h]
  · have : kv.length % 2 = 0 := by omega
    simp [this]

theorem read_unchanged (h h2 : Heap) (s e : Slice) (hp : Pinned h2 s e (h.read e))
    (hlen : e.len ≤ (h.arr e.ptr).length) : h2.read e = h.read e := by
  have hv := view_of_pinned h2 s e _ hp
  have hl : (h.read e).length = e.len := by
    unfold Heap.read
    simp [List.length_take]
    exact hlen
  rw [hl] at hv
  have := hv.1
  rw [← hv.2] at this
  simpa using this

theorem pinned_full (h : Heap) (s e : Slice) (hlen : e.len ≤ (h.arr e.ptr).length)
    (hs : e.ptr = s.ptr → e.len ≤ s.len) : Pinned h s e (h.read e) := by
  have hl : (h.read e).length = e.len := by
    unfold Heap.read
    simp [List.length_take]
    exact hlen
  refine ⟨by omega, hlen, fun hq => by rw [hl]; exact hs hq, ?_⟩
  rw [hl]
  rfl

theorem Error_spec (w : World) (p : Nat) (l : logger) (msg : String)
    (kv : List Value) (now : Time)
    (hl : w.loggers[p]? = some l) (hok : SliceOK w.heap l.keyvals)
    (hinv : l.flushed = true → l.entries = []) :
    (Error w (some p) msg kv now).out =
        w.out ++ l.entries.map (render l.options w.heap) ++
          [(l.options.w, l.options.format
              ⟨now.UTC, SeverityError, padOdd (w.heap.read l.keyvals ++ kv), msg⟩)]
    ∧ (Error w (some p) msg kv now).loggers[p]? =
        some ⟨l.options, l.keyvals, [], true⟩ := by
  unfold Error
  cases hf : l.flushed with
  | true =>
    have he := hinv hf
    rw [Flush_flushed w p l hl hf,
      log_eq_imm w p l hl SeverityError true msg kv now hok (by simp [SeverityError, SeverityDebug])
        (by simp [hf])]
    refine ⟨by simp [hf, he], ?_⟩
    simp only [hf]
    rw [get_set _ _ _ _ hl]
    cases l
    simp_all
  | false =>
    have hF := Flush_fresh w p l hl hf
    have hl2 : (Flush w (some p)).loggers[p]? = some ⟨l.options, l.keyvals, [], true⟩ := by
      rw [hF]
      exact get_set _ _ _ _ hl
    have hh : (Flush w (some p)).heap = w.heap := by rw [hF]
    have ho : (Flush w (some p)).out = w.out ++ l.entries.map (render l.options w.heap) := by
      rw [hF]
    rw [log_eq_imm (Flush w (some p)) p ⟨l.options, l.keyvals, [], true⟩ hl2 SeverityError true
        msg kv now (by rw [hh]; exact hok) (by simp [SeverityError, SeverityDebug]) (by simp)]
    refine ⟨by simp [hh, ho], ?_⟩
    simp only [Bool.not_true, Bool.and_false, if_false]
    exact get_set _ _ _ _ hl2

theorem Context_fresh (dflt : options) (w : World) (opts : List LogOption) :
    Context dflt w none opts =
      (⟨w.grow, w.heap, w.loggers ++
        [⟨opts.foldl (fun o opt => opt o) dflt, Slice.nil, [], false⟩], w.out⟩,
        some w.loggers.length) := rfl

/-- Running the critical sections of a call one after the other, with no other caller
in between, is the call itself. -/
theorem sections_run (dflt : options) (w : World) (ctx : Ctx) (c : Call) :
    runAll dflt w (c.sections.map (fun s => (ctx, s))) = (c.run dflt w ctx).1 := by
  cases c <;> rfl

theorem Flush_out (w : World) (ctx : Ctx) :
    (Flush w ctx).out = w.out ++ (flushViews w ctx).map written := by
  cases ctx with
  | none => simp [Flush, flushViews]
  | some p =>
    cases hl : w.loggers[p]? with
    | none =>
      rw [Flush_none w p hl]
      simp [flushViews, hl]
    | some l =>
      unfold flushViews
      rw [lookup_some w p l hl]
      cases hf : l.flushed with
      | true =>
        rw [Flush_flushed w p l hl hf]
        simp [hf]
      | false =>
        rw [Flush_fresh w p l hl hf]
        simp [hf, render, written, Function.comp_def]

theorem log_out (w : World) (ctx : Ctx) (sev : Severity) (buffer : Bool) (msg : String)
    (kv : List Value) (now : Time) :
    (log w ctx sev buffer msg kv now).out =
      w.out ++ (logViews w ctx sev buffer msg kv now).map written := by
  cases ctx with
  | none => simp [log, logViews]
  | some p =>
    cases hl : w.loggers[p]? with
    | none =>
      rw [log_none w p hl]
      simp [logViews, hl]
    | some l =>
      unfold logViews
      rw [lookup_some w p l hl, log_unfold w p l hl, flush_eq]
      by_cases hdrop : (!l.options.debug && sev == SeverityDebug) = true
      · simp [hdrop]
      · simp only [hdrop, if_false]
        cases hd : l.options.debug <;> cases hf : l.flushed <;> cases buffer <;>
          simp [hd, hf, render, written, Function.comp_def]

theorem run_out (dflt : options) (w : World) (ctx : Ctx) (c : Call) :
    (c.run dflt w ctx).1.out = w.out ++ (c.views w ctx).map written := by
  cases c with
  | Context opts =>
    simp only [Call.run, Call.views, List.map_nil, List.append_nil]
    unfold Context
    split <;> rfl
  | With kv =>
    simp only [Call.run, Call.views, List.map_nil, List.append_nil]
    unfold With
    split <;> rfl
  | Debug msg kv now => exact log_out w ctx _ _ msg kv now
  | Print msg kv now => exact log_out w ctx _ _ msg kv now
  | Info msg kv now => exact log_out w ctx _ _ msg kv now
  | Error msg kv now =>
    simp only [Call.run, Call.views, Error, List.map_append]
    rw [log_out, Flush_out, List.append_assoc]
  | Flush => exact Flush_out w ctx
  | log sev buffer msg kv now => exact log_out w ctx sev buffer msg kv now

theorem runAll_cons (dflt : options) (w : World) (c : Ctx × Call) (t : List (Ctx × Call)) :
    runAll dflt w (c :: t) = runAll dflt (c.2.run dflt w c.1).1 t := rfl

theorem runAll_out (dflt : options) (cs : List (Ctx × Call)) (w : World) :
    (runAll dflt w cs).out = w.out ++ (runViews dflt w cs).map written := by
  induction cs generalizing w with
  | nil => simp [runAll, runViews]
  | cons c t ih =>
    rw [runAll_cons, ih, run_out]
    simp [runViews, List.append_assoc]

theorem logAppend_arr_length (g : Nat → Nat → Nat) (h : Heap) (s : Slice) (xs : List Value)
    (hs : SliceOK h s) (q : Nat) :
    (h.arr q).length ≤ ((logAppend g h s xs).2.arr q).length := by
  unfold logAppend
  split
  · exact le_trans (goAppend_arr_length g h s xs hs q)
      (goAppend_arr_length g _ _ _ (goAppend_ok g h s xs hs) q)
  · exact goAppend_arr_length g h s xs hs q

theorem logAppend_len_even (g : Nat → Nat → Nat) (h : Heap) (s : Slice) (xs : List Value)
    (hs : SliceOK h s) : (logAppend g h s xs).1.len % 2 = 0 := by
  rw [(logAppend_creates_pinned g h s xs hs).2]
  exact padOdd_even _

theorem evenOK_update (w : World) (q : Nat) (lq l2 : logger) (h2 : Heap)
    (g : Nat → Nat → Nat) (o : List (Nat × Bytes))
    (hc : EvenOK w) (hq : w.loggers[q]? = some lq)
    (hmono : ∀ r, (w.heap.arr r).length ≤ (h2.arr r).length)
    (h2ok : SliceOK h2 l2.keyvals) (h2len : l2.keyvals.len % 2 = 0)
    (h2ent : ∀ e ∈ l2.entries, e.KeyVals.len % 2 = 0
        ∧ e.KeyVals.len ≤ (h2.arr e.KeyVals.ptr).length) :
    EvenOK ⟨g, h2, w.loggers.set q l2, o⟩ := by
  intro p l hl
  by_cases hpq : q = p
  · subst hpq
    have : (w.loggers.set q l2)[q]? = some l2 := get_set _ _ _ _ hq
    simp only at hl
    rw [this] at hl
    cases hl
    exact ⟨h2ok, h2len, h2ent⟩
  · have : (w.loggers.set q l2)[p]? = w.loggers[p]? := by
      simp [List.getElem?_set, hpq]
    simp only at hl
    rw [this] at hl
    obtain ⟨a1, a2, a3⟩ := hc p l hl
    refine ⟨⟨a1.1, le_trans a1.2 (hmono _)⟩, a2, ?_⟩
    intro e he
    exact ⟨(a3 e he).1, le_trans (a3 e he).2 (hmono _)⟩

theorem evenOK_With (w : World) (hc : EvenOK w) (ctx : Ctx) (kv : List Value) :
    EvenOK (With w ctx kv).1 := by
  cases ctx with
  | none => exact hc
  | some q =>
    cases hq : w.loggers[q]? with
    | none =>
      have : With w (some q) kv = (w, some q) := by
        unfold With
        rw [lookup_none w q hq]
      rw [this]
      exact hc
    | some lq =>
      rw [With_unfold w q lq hq]
      obtain ⟨a1, a2, a3⟩ := hc q lq hq
      have hmono := goAppend_arr_length w.grow w.heap lq.keyvals (padOdd kv) a1
      refine evenOK_update w q lq _ _ _ _ hc hq hmono (goAppend_ok _ _ _ _ a1) ?_ ?_
      · simp only
        rw [goAppend_len]
        have := padOdd_even kv
        omega
      · intro e he
        exact ⟨(a3 e he).1, le_trans (a3 e he).2 (hmono _)⟩

theorem evenOK_Flush (w : World) (hc : EvenOK w) (ctx : Ctx) : EvenOK (Flush w ctx) := by
  cases ctx with
  | none => exact hc
  | some q =>
    cases hq : w.loggers[q]? with
    | none =>
      rw [Flush_none w q hq]
      exact hc
    | some lq =>
      cases hf : lq.flushed with
      | true =>
        rw [Flush_flushed w q lq hq hf]
        exact hc
      | false =>
        rw [Flush_fresh w q lq hq hf]
        obtain ⟨a1, a2, _⟩ := hc q lq hq
        exact evenOK_update w q lq _ _ _ _ hc hq (fun _ => le_refl _) a1 a2
          (fun e he => by simp at he)

theorem evenOK_log (w : World) (hc : EvenOK w) (ctx : Ctx) (sev : Severity)
    (buffer : Bool) (msg : String) (kv : List Value) (now : Time) :
    EvenOK (log w ctx sev buffer msg kv now) := by
  cases ctx with
  | none => exact hc
  | some q =>
    cases hq : w.loggers[q]? with
    | none =>
      rw [log_none w q hq]
      exact hc
    | some lq =>
      have hL := log_loggers w q lq hq sev buffer msg kv now
      have hH := log_heap w q lq hq sev buffer msg kv now
      obtain ⟨a1, a2, a3⟩ := hc q lq hq
      by_cases hdrop : (!lq.options.debug && sev == SeverityDebug) = true
      · have hw : log w (some q) sev buffer msg kv now = w := by
          rw [log_unfold w q lq hq]
          simp only [hdrop, if_true]
        rw [hw]
        exact hc
      · simp only [hdrop, if_false] at hH
        have hmono : ∀ r, (w.heap.arr r).length ≤
            ((log w (some q) sev buffer msg kv now).heap.arr r).length := by
          intro r
          rw [hH]
          exact logAppend_arr_length _ _ _ _ a1 r
        have hnew : (logAppend w.grow w.heap lq.keyvals kv).1.len ≤
            ((log w (some q) sev buffer msg kv now).heap.arr
              (logAppend w.grow w.heap lq.keyvals kv).1.ptr).length := by
          rw [hH]
          have := logAppend_ok w.grow w.heap lq.keyvals kv a1
          exact le_trans this.1 this.2
        have key := evenOK_update w q lq
          (logResult lq sev buffer ⟨now.UTC, sev, (logAppend w.grow w.heap lq.keyvals kv).1, msg⟩)
          (log w (some q) sev buffer msg kv now).heap
          (log w (some q) sev buffer msg kv now).grow (log w (some q) sev buffer msg kv now).out
          hc hq hmono ?_ ?_ ?_
        · rw [← hL] at key
          exact key
        · have : (logResult lq sev buffer
              ⟨now.UTC, sev, (logAppend w.grow w.heap lq.keyvals kv).1, msg⟩).keyvals
              = lq.keyvals := by
            unfold logResult
            split
            · rfl
            · split
              · rfl
              · split <;> rfl
          rw [this]
          exact ⟨a1.1, le_trans a1.2 (hmono _)⟩
        · have : (logResult lq sev buffer
              ⟨now.UTC, sev, (logAppend w.grow w.heap lq.keyvals kv).1, msg⟩).keyvals
              = lq.keyvals := by
            unfold logResult
            split
            · rfl
            · split
              · rfl
              · split <;> rfl
          rw [this]
          exact a2
        · intro e he
          have hold : ∀ e ∈ lq.entries, e.KeyVals.len % 2 = 0 ∧ e.KeyVals.len ≤
              ((log w (some q) sev buffer msg kv now).heap.arr e.KeyVals.ptr).length :=
            fun e he => ⟨(a3 e he).1, le_trans (a3 e he).2 (hmono _)⟩
          unfold logResult at he
          split at he
          · exact hold e he
          · split at he
            · simp at he
            · split at he
              · exact hold e he
              · simp only [List.mem_append, List.mem_singleton] at he
                rcases he with he | he
                · exact hold e he
                · subst he
                  exact ⟨logAppend_len_even _ _ _ _ a1, hnew⟩

theorem evenOK_Context (dflt : options) (w : World) (hc : EvenOK w) (ctx : Ctx)
    (opts : List LogOption) : EvenOK (Context dflt w ctx opts).1 := by
  have hnew : EvenOK (⟨w.grow, w.heap, w.loggers ++
      [⟨opts.foldl (fun o opt => opt o) dflt, Slice.nil, [], false⟩], w.out⟩ : World) := by
    intro p l hl
    simp only at hl
    by_cases hp : p < w.loggers.length
    · rw [List.getElem?_append_left hp] at hl
      exact hc p l hl
    · by_cases hp2 : p = w.loggers.length
      · subst hp2
        simp at hl
        subst hl
        exact ⟨⟨le_refl _, Nat.zero_le _⟩, rfl, fun e he => by simp at he⟩
      · rw [List.getElem?_eq_none (by simp; omega)] at hl
        cases hl
  cases ctx with
  | none => exact hnew
  | some q =>
    cases hq : w.loggers[q]? with
    | none =>
      have : Context dflt w (some q) opts = (⟨w.grow, w.heap, w.loggers ++
          [⟨opts.foldl (fun o opt => opt o) dflt, Slice.nil, [], false⟩], w.out⟩,
          some w.loggers.length) := by
        unfold Context
        rw [lookup_none w q hq]
      rw [this]
      exact hnew
    | some lq =>
      have : Context dflt w (some q) opts =
          (⟨w.grow, w.heap, w.loggers.set q
            ⟨opts.foldl (fun o opt => opt o) lq.options, lq.keyvals, lq.entries, lq.flushed⟩,
            w.out⟩, some q) := by
        unfold Context
        rw [lookup_some w q lq hq]
      rw [this]
      obtain ⟨a1, a2, a3⟩ := hc q lq hq
      exact evenOK_update w q lq _ _ _ _ hc hq (fun _ => le_refl _) a1 a2 a3

theorem evenOK_run (dflt : options) (w : World) (hc : EvenOK w) (ctx : Ctx)
    (c : Call) : EvenOK (c.run dflt w ctx).1 := by
  cases c with
  | Context opts => exact evenOK_Context dflt w hc ctx opts
  | With kv => exact evenOK_With w hc ctx kv
  | Debug msg kv now => exact evenOK_log w hc ctx _ _ msg kv now
  | Print msg kv now => exact evenOK_log w hc ctx _ _ msg kv now
  | Info msg kv now => exact evenOK_log w hc ctx _ _ msg kv now
  | Error msg kv now => exact evenOK_log _ (evenOK_Flush w hc ctx) ctx _ _ msg kv now
  | Flush => exact evenOK_Flush w hc ctx
  | log sev buffer msg kv now => exact evenOK_log w hc ctx sev buffer msg kv now

theorem evenOK_runAll (dflt : options) (cs : List (Ctx × Call)) (w : World) (hc : EvenOK w) :
    EvenOK (runAll dflt w cs) := by
  induction cs generalizing w with
  | nil => exact hc
  | cons c t ih => exact ih _ (evenOK_run dflt w hc c.1 c.2)

theorem read_length_of_le (h : Heap) (e : Slice) (hlen : e.len ≤ (h.arr e.ptr).length) :
    (h.read e).length = e.len := by
  unfold Heap.read
  simp [List.length_take]
  exact hlen

theorem flushViews_even (w : World) (hc : EvenOK w) (ctx : Ctx) :
    ∀ ov ∈ flushViews w ctx, ov.2.KeyVals.length % 2 = 0 := by
  intro ov hov
  cases ctx with
  | none => simp [flushViews] at hov
  | some q =>
    cases hq : w.loggers[q]? with
    | none => simp [flushViews, hq] at hov
    | some lq =>
      unfold flushViews at hov
      rw [lookup_some w q lq hq] at hov
      simp only at hov
      split at hov
      · simp at hov
      · simp only [List.mem_map] at hov
        obtain ⟨e, he, rfl⟩ := hov
        obtain ⟨_, _, a3⟩ := hc q lq hq
        simp only [Heap.view]
        rw [read_length_of_le _ _ (a3 e he).2]
        exact (a3 e he).1

theorem logViews_even (w : World) (hc : EvenOK w) (ctx : Ctx) (sev : Severity) (buffer : Bool)
    (msg : String) (kv : List Value) (now : Time) :
    ∀ ov ∈ logViews w ctx sev buffer msg kv now, ov.2.KeyVals.length % 2 = 0 := by
  intro ov hov
  cases ctx with
  | none => simp [logViews] at hov
  | some q =>
    cases hq : w.loggers[q]? with
    | none => simp [logViews, hq] at hov
    | some lq =>
      obtain ⟨a1, _, a3⟩ := hc q lq hq
      unfold logViews at hov
      rw [lookup_some w q lq hq] at hov
      simp only at hov
      split at hov
      · simp at hov
      · rw [List.mem_append] at hov
        rcases hov with hov | hov
        · split at hov
          · simp only [List.mem_map] at hov
            obtain ⟨e, he, rfl⟩ := hov
            simp only [Heap.view]
            rw [read_length_of_le _ _ (a3 e he).2]
            exact (a3 e he).1
          · simp at hov
        · split at hov
          · simp only [List.mem_singleton] at hov
            subst hov
            simp only [Heap.view]
            rw [logAppend_read _ _ _ _ a1]
            exact padOdd_even _
          · simp at hov

theorem views_even (w : World) (hc : EvenOK w) (ctx : Ctx) (c : Call) :
    ∀ ov ∈ c.views w ctx, ov.2.KeyVals.length % 2 = 0 := by
  cases c with
  | Context opts => intro ov hov; simp [Call.views] at hov
  | With kv => intro ov hov; simp [Call.views] at hov
  | Debug msg kv now => exact logViews_even w hc ctx _ _ msg kv now
  | Print msg kv now => exact logViews_even w hc ctx _ _ msg kv now
  | Info msg kv now => exact logViews_even w hc ctx _ _ msg kv now
  | Error msg kv now =>
    intro ov hov
    simp only [Call.views, List.mem_append] at hov
    rcases hov with hov | hov
    · exact flushViews_even w hc ctx ov hov
    · exact logViews_even _ (evenOK_Flush w hc ctx) ctx _ _ msg kv now ov hov
  | Flush => exact flushViews_even w hc ctx
  | log sev buffer msg kv now => exact logViews_even w hc ctx sev buffer msg kv now

theorem runViews_even (dflt : options) (cs : List (Ctx × Call)) (w : World) (hc : EvenOK w) :
    ∀ ov ∈ runViews dflt w cs, ov.2.KeyVals.length % 2 = 0 := by
  induction cs generalizing w with
  | nil => intro ov hov; simp [runViews] at hov
  | cons c t ih =>
    intro ov hov
    simp only [runViews, List.mem_append] at hov
    rcases hov with hov | hov
    · exact views_even w hc c.1 c.2 ov hov
    · exact ih _ (evenOK_run dflt w hc c.1 c.2) ov hov

theorem parse_ok_of_even (kv : List Value) (h : kv.length % 2 = 0) :
    KeyVals.Parse kv = Outcome.ok (specKeys kv, specVals kv) := by
  rw [parse_eq]
  simp [h]

theorem bufferOf_eq (w : World) (p : Nat) (l : logger) (hl : w.loggers[p]? = some l) :
    bufferOf w p = l.entries := by
  simp [bufferOf, hl]

theorem view_stamp (h : Heap) (e : Entry) : (h.view e).stamp = e.stamp := rfl

theorem conserve_Flush (w : World) (p : Nat) (l : logger) (hl : w.loggers[p]? = some l) :
    (flushViews w (some p)).map (fun ov => ov.2.stamp)
        ++ (bufferOf (Flush w (some p)) p).map Entry.stamp
      = l.entries.map Entry.stamp := by
  unfold flushViews
  rw [lookup_some w p l hl]
  cases hf : l.flushed with
  | true =>
    rw [Flush_flushed w p l hl hf, bufferOf_eq w p l hl]
    simp [hf]
  | false =>
    rw [Flush_fresh w p l hl hf]
    rw [bufferOf_eq _ p ⟨l.options, l.keyvals, [], true⟩ (get_set _ _ _ _ hl)]
    simp [hf, Function.comp_def, view_stamp]

theorem conserve_log (w : World) (p : Nat) (l : logger) (hl : w.loggers[p]? = some l)
    (hinv : l.flushed = true → l.entries = [])
    (sev : Severity) (msg : String) (kv : List Value) (now : Time) :
    (logViews w (some p) sev true msg kv now).map (fun ov => ov.2.stamp)
        ++ (bufferOf (log w (some p) sev true msg kv now) p).map Entry.stamp
      = l.entries.map Entry.stamp ++ logAccepted w (some p) sev msg now := by
  have hL := log_loggers w p l hl sev true msg kv now
  have hb : bufferOf (log w (some p) sev true msg kv now) p =
      (logResult l sev true ⟨now.UTC, sev, (logAppend w.grow w.heap l.keyvals kv).1, msg⟩).entries := by
    apply bufferOf_eq
    rw [hL]
    exact get_set _ _ _ _ hl
  rw [hb]
  unfold logViews logAccepted logResult
  rw [lookup_some w p l hl]
  by_cases hdrop : (!l.options.debug && sev == SeverityDebug) = true
  · simp [hdrop]
  · simp only [hdrop, if_false]
    cases hd : l.options.debug <;> cases hf : l.flushed
    · simp [Entry.stamp]
    · simp [hinv hf, Heap.view, EntryView.stamp]
    · simp [Function.comp_def, view_stamp, Heap.view, EntryView.stamp, Entry.stamp]
    · simp [hinv hf, Heap.view, EntryView.stamp]

theorem hinv_of_consistent (w : World) (hc : Consistent w) (p : Nat) (l : logger)
    (hl : w.loggers[p]? = some l) : l.flushed = true → l.entries = [] :=
  (hc p l hl).2

theorem run_keeps_logger (dflt : options) (w : World) (p : Nat) (l : logger)
    (hl : w.loggers[p]? = some l) (c : Call) :
    ∃ l2, (c.run dflt w (some p)).1.loggers[p]? = some l2 := by
  have hlog : ∀ (w2 : World) (l0 : logger), w2.loggers[p]? = some l0 →
      ∀ sev buffer msg kv now, ∃ l2, (log w2 (some p) sev buffer msg kv now).loggers[p]? = some l2 := by
    intro w2 l0 h0 sev buffer msg kv now
    rw [log_loggers w2 p l0 h0]
    exact ⟨_, get_set _ _ _ _ h0⟩
  have hflush : ∃ l2, (Flush w (some p)).loggers[p]? = some l2 := by
    rw [Flush_loggers w p l hl]
    exact ⟨_, get_set _ _ _ _ hl⟩
  cases c with
  | Context opts =>
    have : Context dflt w (some p) opts =
        (⟨w.grow, w.heap, w.loggers.set p
          ⟨opts.foldl (fun o opt => opt o) l.options, l.keyvals, l.entries, l.flushed⟩,
          w.out⟩, some p) := by
      unfold Context
      rw [lookup_some w p l hl]
    simp only [Call.run]
    rw [this]
    exact ⟨_, get_set _ _ _ _ hl⟩
  | With kv =>
    simp only [Call.run]
    rw [With_unfold w p l hl]
    exact ⟨_, get_set _ _ _ _ hl⟩
  | Debug msg kv now => exact hlog w l hl _ _ msg kv now
  | Print msg kv now => exact hlog w l hl _ _ msg kv now
  | Info msg kv now => exact hlog w l hl _ _ msg kv now
  | Error msg kv now =>
    obtain ⟨l1, h1⟩ := hflush
    exact hlog _ l1 h1 _ _ msg kv now
  | Flush => exact hflush
  | log sev buffer msg kv now => exact hlog w l hl sev buffer msg kv now

theorem run_ctx (dflt : options) (w : World) (p : Nat) (l : logger)
    (hl : w.loggers[p]? = some l) (c : Call) : (c.run dflt w (some p)).2 = some p := by
  cases c with
  | Context opts =>
    simp only [Call.run]
    unfold Context
    rw [lookup_some w p l hl]
  | With kv =>
    simp only [Call.run]
    rw [With_unfold w p l hl]
  | Debug msg kv now => rfl
  | Print msg kv now => rfl
  | Info msg kv now => rfl
  | Error msg kv now => rfl
  | Flush => rfl
  | log sev buffer msg kv now => rfl

theorem conserve_run (dflt : options) (w : World) (hc : Consistent w) (p : Nat) (l : logger)
    (hl : w.loggers[p]? = some l) (c : Call) (hb : c.buffers = true) :
    (c.views w (some p)).map (fun ov => ov.2.stamp)
        ++ (bufferOf (c.run dflt w (some p)).1 p).map Entry.stamp
      = (bufferOf w p).map Entry.stamp ++ c.accepted w (some p) := by
  have hinv := hinv_of_consistent w hc p l hl
  rw [bufferOf_eq w p l hl]
  cases c with
  | Context opts =>
    have : Context dflt w (some p) opts =
        (⟨w.grow, w.heap, w.loggers.set p
          ⟨opts.foldl (fun o opt => opt o) l.options, l.keyvals, l.entries, l.flushed⟩,
          w.out⟩, some p) := by
      unfold Context
      rw [lookup_some w p l hl]
    simp only [Call.run, Call.views, Call.accepted, List.map_nil, List.nil_append,
      List.append_nil]
    rw [this, bufferOf_eq _ p _ (get_set _ _ _ _ hl)]
  | With kv =>
    simp only [Call.run, Call.views, Call.accepted, List.map_nil, List.nil_append,
      List.append_nil]
    rw [With_unfold w p l hl, bufferOf_eq _ p _ (get_set _ _ _ _ hl)]
  | Debug msg kv now => exact conserve_log w p l hl hinv _ msg kv now
  | Print msg kv now => simp [Call.buffers] at hb
  | Info msg kv now => exact conserve_log w p l hl hinv _ msg kv now
  | Error msg kv now =>
    simp only [Call.run, Call.views, Call.accepted, Error, List.map_append]
    have hF := conserve_Flush w p l hl
    obtain ⟨l1, h1⟩ : ∃ l1, (Flush w (some p)).loggers[p]? = some l1 := by
      rw [Flush_loggers w p l hl]
      exact ⟨_, get_set _ _ _ _ hl⟩
    have hinv1 := hinv_of_consistent _ (consistent_Flush w hc (some p)) p l1 h1
    have hLg := conserve_log (Flush w (some p)) p l1 h1 hinv1 SeverityError msg kv now
    rw [bufferOf_eq _ p l1 h1] at hF
    rw [List.append_assoc, hLg, ← List.append_assoc, hF]
  | Flush =>
    simp only [Call.run, Call.views, Call.accepted, List.append_nil]
    exact conserve_Flush w p l hl
  | log sev buffer msg kv now =>
    simp only [Call.buffers] at hb
    subst hb
    exact conserve_log w p l hl hinv sev msg kv now

theorem onLogger_cons (p : Nat) (c : Call) (t : List Call) :
    onLogger p (c :: t) = (some p, c) :: onLogger p t := rfl

theorem conserve_runAll (dflt : options) (cs : List Call) (w : World) (hc : Consistent w)
    (p : Nat) (l : logger) (hl : w.loggers[p]? = some l)
    (hb : ∀ c ∈ cs, c.buffers = true) :
    (runViews dflt w (onLogger p cs)).map (fun ov => ov.2.stamp)
        ++ (bufferOf (runAll dflt w (onLogger p cs)) p).map Entry.stamp
      = (bufferOf w p).map Entry.stamp ++ runAccepted dflt w (onLogger p cs) := by
  induction cs generalizing w l with
  | nil => simp [onLogger, runViews, runAll, runAccepted]
  | cons c t ih =>
    rw [onLogger_cons, runAll_cons]
    simp only [runViews, runAccepted, List.map_append]
    obtain ⟨l2, hl2⟩ := run_keeps_logger dflt w p l hl c
    have h1 := conserve_run dflt w hc p l hl c (hb c (by simp))
    have h2 := ih (c.run dflt w (some p)).1 (consistent_run dflt w hc (some p) c) l2 hl2
      (fun c2 hc2 => hb c2 (by simp [hc2]))
    rw [List.append_assoc, h2, ← List.append_assoc, h1, List.append_assoc]

theorem sampleWorld_consistent : Consistent sampleWorld := by
  have h0 : Consistent World.empty := by
    intro p l hl
    simp [World.empty] at hl
  exact consistent_log _ (consistent_log _
    (consistent_With _ (consistent_Context sampleOptions _ h0 none []) (some 0) _)
    (some 0) SeverityInfo true "step1" [] ⟨5, false⟩)
    (some 0) SeverityInfo true "step2" [Value.str "n", Value.int 7] ⟨6, false⟩

/-- What `With` does on a bound logger: the new shared list is the old one, then the given
values, then one nil value when their number is odd; nothing is written, the context
is returned as given, and the options, the entry objects in the buffer and the latch
are the same. The formatter sees an entry as before when its slice does not reach into
the spare capacity of the shared list; for the other entries it need not. -/
theorem With_extends_shared_list (w : World) (p : Nat) (l : logger) (kv : List Value)
    (hl : w.loggers[p]? = some l) (hok : SliceOK w.heap l.keyvals) :
    ∃ s : Slice,
      (With w (some p) kv).1.loggers[p]? = some ⟨l.options, s, l.entries, l.flushed⟩
      ∧ (With w (some p) kv).1.heap.read s =
          w.heap.read l.keyvals ++ kv ++ (if kv.length % 2 = 1 then [Value.null] else [])
      ∧ SliceOK (With w (some p) kv).1.heap s
      ∧ (With w (some p) kv).1.out = w.out
      ∧ (With w (some p) kv).2 = some p
      ∧ (∀ e : Entry, e.KeyVals.len ≤ (w.heap.arr e.KeyVals.ptr).length →
          (e.KeyVals.ptr = l.keyvals.ptr → e.KeyVals.len ≤ l.keyvals.len) →
          (With w (some p) kv).1.heap.view e = w.heap.view e) := by
  rw [With_unfold w p l hl kv]
  refine ⟨(goAppend w.grow w.heap l.keyvals (padOdd kv)).1, get_set _ _ _ _ hl, ?_,
    goAppend_ok _ _ _ _ hok, rfl, rfl, ?_⟩
  · simp only
    rw [goAppend_read _ _ _ _ hok, padOdd_eq, List.append_assoc]
  · intro e h1 h2
    have hp := (goAppend_pinned w.grow w.heap l.keyvals e.KeyVals (padOdd kv) _ hok
      (pinned_full w.heap l.keyvals e.KeyVals h1 h2)).1
    simp only [Heap.view]
    rw [read_unchanged w.heap _ _ e.KeyVals hp h1]

/-! ## Properties of the logger -/

/-- C1: on a bound logger in any state the program can be in (latch set or not, debug
on or off, any buffer, the buffer being empty once the latch is set), one `Error` call
adds to the trace the rendering of every buffered entry, in insertion order, then the
rendering of the error entry; the buffer is then empty and the latch set. -/
theorem C1_Error_flushes_then_writes (w : World) (p : Nat) (l : logger) (msg : String)
    (kv : List Value) (now : Time)
    (hl : w.loggers[p]? = some l) (hok : SliceOK w.heap l.keyvals)
    (hinv : l.flushed = true → l.entries = []) :
    (Error w (some p) msg kv now).out =
        w.out ++ l.entries.map (render l.options w.heap) ++
          [(l.options.w, l.options.format
              ⟨now.UTC, SeverityError, padOdd (w.heap.read l.keyvals ++ kv), msg⟩)]
    ∧ (Error w (some p) msg kv now).loggers[p]? =
        some ⟨l.options, l.keyvals, [], true⟩ := by
  unfold Error
  cases hf : l.flushed with
  | true =>
    have he := hinv hf
    rw [Flush_flushed w p l hl hf,
      log_eq_imm w p l hl SeverityError true msg kv now hok (by simp [SeverityError, SeverityDebug])
        (by simp [hf])]
    refine ⟨by simp [hf, he], ?_⟩
    simp only [hf]
    rw [get_set _ _ _ _ hl]
    cases l
    simp_all
  | false =>
    have hF := Flush_fresh w p l hl hf
    have hl2 : (Flush w (some p)).loggers[p]? = some ⟨l.options, l.keyvals, [], true⟩ := by
      rw [hF]
      exact get_set _ _ _ _ hl
    have hh : (Flush w (some p)).heap = w.heap := by rw [hF]
    have ho : (Flush w (some p)).out = w.out ++ l.entries.map (render l.options w.heap) := by
      rw [hF]
    rw [log_eq_imm (Flush w (some p)) p ⟨l.options, l.keyvals, [], true⟩ hl2 SeverityError true
        msg kv now (by rw [hh]; exact hok) (by simp [SeverityError, SeverityDebug]) (by simp)]
    refine ⟨by simp [hh, ho], ?_⟩
    simp only [Bool.not_true, Bool.and_false, if_false]
    exact get_set _ _ _ _ hl2

theorem C1_Error_flushes_then_writes_witness :
    (sampleWorld.loggers[0]? = some sampleLogger ∧ SliceOK sampleWorld.heap sampleLogger.keyvals
      ∧ (sampleLogger.flushed = true → sampleLogger.entries = []))
    ∧ ((Error sampleWorld (some 0) "boom" [Value.str "err"] ⟨9, false⟩).out =
          sampleWorld.out ++ sampleLogger.entries.map (render sampleLogger.options sampleWorld.heap) ++
            [(sampleLogger.options.w, sampleLogger.options.format
                ⟨Time.UTC ⟨9, false⟩, SeverityError,
                  padOdd (sampleWorld.heap.read sampleLogger.keyvals ++ [Value.str "err"]), "boom"⟩)]
      ∧ (Error sampleWorld (some 0) "boom" [Value.str "err"] ⟨9, false⟩).loggers[0]? =
          some ⟨sampleLogger.options, sampleLogger.keyvals, [], true⟩) :=
  ⟨⟨rfl, by decide, by decide⟩,
    C1_Error_flushes_then_writes sampleWorld 0 sampleLogger "boom" [Value.str "err"] ⟨9, false⟩
      rfl (by decide) (by decide)⟩

/-- C2: after any sequence of `With` calls on a bound logger whose shared list holds
whole pairs, a log call that the debug filter lets through builds an entry whose
key/value sequence is the shared list as it was, then the values of every `With` call
in call order (each list of odd length completed with one nil value), then the
call-site values (completed likewise). That entry is what the formatter receives: during
the call when the entry is written at once, and by the next `Flush` when it is buffered. -/
theorem C2_entry_keyvals (w : World) (p : Nat) (l : logger) (kvs : List (List Value))
    (sev : Severity) (buffer : Bool) (msg : String) (kv : List Value) (now : Time)
    (hl : w.loggers[p]? = some l) (hok : SliceOK w.heap l.keyvals)
    (heven : (w.heap.read l.keyvals).length % 2 = 0)
    (hnd : ¬ (l.options.debug = false ∧ sev = SeverityDebug)) :
    ((l.flushed || l.options.debug || !buffer) = true →
      (log (WithAll w (some p) kvs) (some p) sev buffer msg kv now).out =
        w.out ++
          (if (l.options.debug && !l.flushed) = true
           then l.entries.map (render l.options (WithAll w (some p) kvs).heap) else []) ++
          [(l.options.w, l.options.format
            ⟨now.UTC, sev, w.heap.read l.keyvals ++ (kvs.map padOdd).flatten ++ padOdd kv, msg⟩)])
    ∧ ((l.flushed || l.options.debug || !buffer) = false →
      (log (WithAll w (some p) kvs) (some p) sev buffer msg kv now).out = w.out
      ∧ ∃ e l2, (log (WithAll w (some p) kvs) (some p) sev buffer msg kv now).loggers[p]? = some l2
        ∧ l2.entries = l.entries ++ [e]
        ∧ (log (WithAll w (some p) kvs) (some p) sev buffer msg kv now).heap.view e =
            ⟨now.UTC, sev, w.heap.read l.keyvals ++ (kvs.map padOdd).flatten ++ padOdd kv, msg⟩
        ∧ (Flush (log (WithAll w (some p) kvs) (some p) sev buffer msg kv now) (some p)).out =
            w.out ++ l.entries.map (render l.options
                (log (WithAll w (some p) kvs) (some p) sev buffer msg kv now).heap) ++
              [(l.options.w, l.options.format
                ⟨now.UTC, sev, w.heap.read l.keyvals ++ (kvs.map padOdd).flatten ++ padOdd kv,
                  msg⟩)]) := by
  obtain ⟨s, h1, h2, h3, h4, h5⟩ := WithAll_spec kvs w p l hl hok
  have hpre : (w.heap.read l.keyvals ++ (kvs.map padOdd).flatten).length % 2 = 0 := by
    have := flatten_padOdd_even kvs
    simp only [List.length_append]
    omega
  have hpad : padOdd ((WithAll w (some p) kvs).heap.read s ++ kv) =
      w.heap.read l.keyvals ++ (kvs.map padOdd).flatten ++ padOdd kv := by
    rw [h3, padOdd_append _ _ hpre]
  constructor
  · intro hi
    rw [log_eq_imm _ p _ h1 sev buffer msg kv now h2 hnd hi]
    simp only [hpad, h4]
  · intro hi
    have hf : l.flushed = false := by
      cases hx : l.flushed <;> simp_all
    have hd : l.options.debug = false := by
      cases hx : l.options.debug <;> simp_all
    have hb : buffer = true := by
      cases buffer <;> simp_all
    have hs : sev ≠ SeverityDebug := fun hc => hnd ⟨hd, hc⟩
    subst hb
    have hL := log_eq_buf _ p _ h1 sev msg kv now hd hs hf
    have hR := logAppend_read (WithAll w (some p) kvs).grow (WithAll w (some p) kvs).heap s kv h2
    rw [hpad] at hR
    have hl2 : (log (WithAll w (some p) kvs) (some p) sev true msg kv now).loggers[p]? =
        some ⟨l.options, s, l.entries ++
          [⟨now.UTC, sev, (logAppend (WithAll w (some p) kvs).grow
            (WithAll w (some p) kvs).heap s kv).1, msg⟩], l.flushed⟩ := by
      rw [hL]
      exact get_set _ _ _ _ h1
    have hv : (log (WithAll w (some p) kvs) (some p) sev true msg kv now).heap.view
        ⟨now.UTC, sev, (logAppend (WithAll w (some p) kvs).grow
            (WithAll w (some p) kvs).heap s kv).1, msg⟩ =
        ⟨now.UTC, sev, w.heap.read l.keyvals ++ (kvs.map padOdd).flatten ++ padOdd kv, msg⟩ := by
      rw [hL]
      simp only [Heap.view, hR]
    have ho : (log (WithAll w (some p) kvs) (some p) sev true msg kv now).out = w.out := by
      rw [hL]
      exact h4
    refine ⟨ho, _, _, hl2, rfl, hv, ?_⟩
    rw [Flush_fresh _ p _ hl2 hf]
    simp only [ho, List.map_append, List.map_cons, List.map_nil]
    simp only [render, hv]
    simp only [List.append_assoc]

theorem C2_entry_keyvals_witness :
    (sampleWorld.loggers[0]? = some sampleLogger ∧ SliceOK sampleWorld.heap sampleLogger.keyvals
      ∧ (sampleWorld.heap.read sampleLogger.keyvals).length % 2 = 0
      ∧ ¬ (sampleLogger.options.debug = false ∧ SeverityInfo = SeverityDebug))
    ∧ (log (WithAll sampleWorld (some 0) [[Value.str "a"], [Value.str "b", Value.int 2]])
          (some 0) SeverityInfo true "m" [Value.str "c"] ⟨9, false⟩).out = sampleWorld.out :=
  ⟨⟨rfl, by decide, by decide, by decide⟩,
    ((C2_entry_keyvals sampleWorld 0 sampleLogger [[Value.str "a"], [Value.str "b", Value.int 2]]
      SeverityInfo true "m" [Value.str "c"] ⟨9, false⟩ rfl (by decide) (by decide) (by decide)).2
      rfl).1⟩

/-- C3: once the latch of a logger is set and its buffer empty, this stays so after
every call (`Context` with any options, `With`, `Debug`, `Info`, `Print`, `Error`,
`Flush`, `log` with any severity and buffer flag) on any context, hence after every
sequence of calls; and every log call on such a logger that the debug filter lets
through writes its entry during the call. -/
theorem C3_flushed_is_forever (dflt : options) (w : World) (p : Nat) (l : logger)
    (hl : w.loggers[p]? = some l) (hf : l.flushed = true) (he : l.entries = [])
    (hok : SliceOK w.heap l.keyvals) :
    (∀ (c : Call) (ctx : Ctx), Latched (c.run dflt w ctx).1 p)
    ∧ (∀ cs : List (Ctx × Call), Latched (runAll dflt w cs) p)
    ∧ (∀ (sev : Severity) (buffer : Bool) (msg : String) (kv : List Value) (now : Time),
        ¬ (l.options.debug = false ∧ sev = SeverityDebug) →
        (log w (some p) sev buffer msg kv now).out =
          w.out ++ [(l.options.w, l.options.format
            ⟨now.UTC, sev, padOdd (w.heap.read l.keyvals ++ kv), msg⟩)]) := by
  have hL : Latched w p := ⟨l, hl, hf, he⟩
  refine ⟨fun c ctx => latched_run dflt w p hL ctx c,
    fun cs => latched_runAll dflt cs w p hL, ?_⟩
  intro sev buffer msg kv now hnd
  rw [log_eq_imm w p l hl sev buffer msg kv now hok hnd (by simp [hf])]
  simp [hf]

theorem C3_flushed_is_forever_witness :
    (sampleFlushedWorld.loggers[0]? = some sampleFlushedLogger
      ∧ sampleFlushedLogger.flushed = true ∧ sampleFlushedLogger.entries = []
      ∧ SliceOK sampleFlushedWorld.heap sampleFlushedLogger.keyvals)
    ∧ ((∀ (c : Call) (ctx : Ctx), Latched (c.run sampleOptions sampleFlushedWorld ctx).1 0)
      ∧ (∀ cs : List (Ctx × Call), Latched (runAll sampleOptions sampleFlushedWorld cs) 0)
      ∧ (∀ (sev : Severity) (buffer : Bool) (msg : String) (kv : List Value) (now : Time),
          ¬ (sampleFlushedLogger.options.debug = false ∧ sev = SeverityDebug) →
          (log sampleFlushedWorld (some 0) sev buffer msg kv now).out =
            sampleFlushedWorld.out ++ [(sampleFlushedLogger.options.w,
              sampleFlushedLogger.options.format
                ⟨now.UTC, sev,
                  padOdd (sampleFlushedWorld.heap.read sampleFlushedLogger.keyvals ++ kv), msg⟩)])) :=
  ⟨⟨rfl, rfl, rfl, by decide⟩,
    C3_flushed_is_forever sampleOptions sampleFlushedWorld 0 sampleFlushedLogger rfl rfl rfl
      (by decide)⟩

/-- C4: on a logger that has not been flushed, `Flush` writes the rendering of every
buffered entry, one write per entry in insertion order, and nothing else; the buffer
is then empty and the latch set, while the shared pairs, the options, the heap and
the other loggers stay as they were. -/
theorem C4_Flush_writes_buffer (w : World) (p : Nat) (l : logger)
    (hl : w.loggers[p]? = some l) (hf : l.flushed = false) :
    (Flush w (some p)).out = w.out ++ l.entries.map (render l.options w.heap)
    ∧ (Flush w (some p)).loggers[p]? =
        some ⟨l.options, l.keyvals, [], true⟩
    ∧ (Flush w (some p)).loggers = w.loggers.set p ⟨l.options, l.keyvals, [], true⟩
    ∧ (Flush w (some p)).heap = w.heap := by
  rw [Flush_fresh w p l hl hf]
  exact ⟨rfl, get_set _ _ _ _ hl, rfl, rfl⟩

theorem C4_Flush_writes_buffer_witness :
    (sampleWorld.loggers[0]? = some sampleLogger ∧ sampleLogger.flushed = false)
    ∧ ((Flush sampleWorld (some 0)).out = sampleWorld.out ++
          sampleLogger.entries.map (render sampleLogger.options sampleWorld.heap)
      ∧ (Flush sampleWorld (some 0)).loggers[0]? =
          some ⟨sampleLogger.options, sampleLogger.keyvals, [], true⟩
      ∧ (Flush sampleWorld (some 0)).loggers =
          sampleWorld.loggers.set 0 ⟨sampleLogger.options, sampleLogger.keyvals, [], true⟩
      ∧ (Flush sampleWorld (some 0)).heap = sampleWorld.heap) :=
  ⟨⟨rfl, rfl⟩, C4_Flush_writes_buffer sampleWorld 0 sampleLogger rfl rfl⟩

/-- C5: `Flush` is idempotent: for every world and every context (bound or not),
a second `Flush` right after the first leaves the whole state, the trace of writes
included, exactly as the first call left it. -/
theorem C5_Flush_idempotent (w : World) (ctx : Ctx) :
    Flush (Flush w ctx) ctx = Flush w ctx := by
  cases ctx with
  | none => rfl
  | some p =>
    cases hl : w.loggers[p]? with
    | none =>
      have h1 : Flush w (some p) = w := by
        unfold Flush
        simp [hl]
      rw [h1, h1]
    | some l =>
      cases hf : l.flushed with
      | true => rw [Flush_flushed w p l hl hf, Flush_flushed w p l hl hf]
      | false =>
        rw [Flush_fresh w p l hl hf]
        exact Flush_flushed _ p ⟨l.options, l.keyvals, [], true⟩ (get_set _ _ _ _ hl) rfl

/-- C6: with debug mode off, a log call of severity Debug (through `Debug` or through
`log` with any buffer flag) leaves the whole state as it is: nothing is written,
nothing is buffered, and the shared pairs, the buffer and the latch are unchanged;
hence a later `Flush` or `Error` behaves as if the call had not been made. -/
theorem C6_Debug_dropped (w : World) (p : Nat) (l : logger) (msg : String)
    (kv : List Value) (now : Time)
    (hl : w.loggers[p]? = some l) (hd : l.options.debug = false) :
    Debug w (some p) msg kv now = w
    ∧ (∀ buffer : Bool, log w (some p) SeverityDebug buffer msg kv now = w)
    ∧ Flush (Debug w (some p) msg kv now) (some p) = Flush w (some p)
    ∧ (∀ (m2 : String) (kv2 : List Value) (t2 : Time),
        Error (Debug w (some p) msg kv now) (some p) m2 kv2 t2 = Error w (some p) m2 kv2 t2) := by
  have h1 : Debug w (some p) msg kv now = w := log_dropped w p l hl hd true msg kv now
  refine ⟨h1, fun b => log_dropped w p l hl hd b msg kv now, ?_, ?_⟩
  · rw [h1]
  · intro m2 kv2 t2
    rw [h1]

theorem C6_Debug_dropped_witness :
    (sampleWorld.loggers[0]? = some sampleLogger ∧ sampleLogger.options.debug = false)
    ∧ (Debug sampleWorld (some 0) "start" [Value.str "k"] ⟨9, false⟩ = sampleWorld
      ∧ (∀ buffer : Bool,
          log sampleWorld (some 0) SeverityDebug buffer "start" [Value.str "k"] ⟨9, false⟩
            = sampleWorld)
      ∧ Flush (Debug sampleWorld (some 0) "start" [Value.str "k"] ⟨9, false⟩) (some 0)
          = Flush sampleWorld (some 0)
      ∧ (∀ (m2 : String) (kv2 : List Value) (t2 : Time),
          Error (Debug sampleWorld (some 0) "start" [Value.str "k"] ⟨9, false⟩) (some 0) m2 kv2 t2
            = Error sampleWorld (some 0) m2 kv2 t2)) :=
  ⟨⟨rfl, rfl⟩, C6_Debug_dropped sampleWorld 0 sampleLogger "start" [Value.str "k"] ⟨9, false⟩ rfl rfl⟩

/-- C7: on a bound logger, whatever its latch, its debug flag and its buffer, a `Print`
call writes the rendering of its own entry of severity Info during the call (after the
buffered entries, when debug mode makes the call flush them first) and the buffer
does not receive the entry: it is what it was, or empty after that flush. -/
theorem C7_Print_writes_now (w : World) (p : Nat) (l : logger) (msg : String)
    (kv : List Value) (now : Time)
    (hl : w.loggers[p]? = some l) (hok : SliceOK w.heap l.keyvals) :
    (Print w (some p) msg kv now).out =
        w.out ++ (if (l.options.debug && !l.flushed) = true
                  then l.entries.map (render l.options w.heap) else []) ++
          [(l.options.w, l.options.format
              ⟨now.UTC, SeverityInfo, padOdd (w.heap.read l.keyvals ++ kv), msg⟩)]
    ∧ ∃ l2, (Print w (some p) msg kv now).loggers[p]? = some l2
        ∧ l2.entries = (if (l.options.debug && !l.flushed) = true then [] else l.entries) := by
  unfold Print
  rw [log_eq_imm w p l hl SeverityInfo false msg kv now hok
      (by simp [SeverityInfo, SeverityDebug]) (by simp)]
  refine ⟨rfl, _, get_set _ _ _ _ hl, ?_⟩
  split <;> rfl

theorem C7_Print_writes_now_witness :
    (sampleWorld.loggers[0]? = some sampleLogger ∧ SliceOK sampleWorld.heap sampleLogger.keyvals)
    ∧ ((Print sampleWorld (some 0) "hello" [Value.str "k", Value.int 1] ⟨9, false⟩).out =
        sampleWorld.out ++ (if (sampleLogger.options.debug && !sampleLogger.flushed) = true
                  then sampleLogger.entries.map (render sampleLogger.options sampleWorld.heap)
                  else []) ++
          [(sampleLogger.options.w, sampleLogger.options.format
              ⟨Time.UTC ⟨9, false⟩, SeverityInfo,
                padOdd (sampleWorld.heap.read sampleLogger.keyvals ++ [Value.str "k", Value.int 1]),
                "hello"⟩)]
      ∧ ∃ l2, (Print sampleWorld (some 0) "hello" [Value.str "k", Value.int 1] ⟨9, false⟩).loggers[0]?
            = some l2
          ∧ l2.entries = (if (sampleLogger.options.debug && !sampleLogger.flushed) = true
              then [] else sampleLogger.entries)) :=
  ⟨⟨rfl, by decide⟩,
    C7_Print_writes_now sampleWorld 0 sampleLogger "hello" [Value.str "k", Value.int 1] ⟨9, false⟩
      rfl (by decide)⟩

/-- C8: with debug mode on, a log call of any severity and any buffer flag on a logger
that has not been flushed writes the buffered entries in insertion order and then its
own entry, all during the call; the buffer is then empty and the latch set. In debug
mode a log call on a flushed logger writes its entry at once too, so no log call in
debug mode leaves anything in the buffer. -/
theorem C8_debug_flushes_first (w : World) (p : Nat) (l : logger) (sev : Severity)
    (buffer : Bool) (msg : String) (kv : List Value) (now : Time)
    (hl : w.loggers[p]? = some l) (hok : SliceOK w.heap l.keyvals)
    (hinv : l.flushed = true → l.entries = [])
    (hd : l.options.debug = true) :
    (l.flushed = false →
      (log w (some p) sev buffer msg kv now).out =
        w.out ++ l.entries.map (render l.options w.heap) ++
          [(l.options.w, l.options.format
              ⟨now.UTC, sev, padOdd (w.heap.read l.keyvals ++ kv), msg⟩)])
    ∧ (l.flushed = true →
      (log w (some p) sev buffer msg kv now).out =
        w.out ++ [(l.options.w, l.options.format
              ⟨now.UTC, sev, padOdd (w.heap.read l.keyvals ++ kv), msg⟩)])
    ∧ (log w (some p) sev buffer msg kv now).loggers[p]? =
        some ⟨l.options, l.keyvals, [], true⟩ := by
  rw [log_eq_imm w p l hl sev buffer msg kv now hok (by simp [hd]) (by simp [hd])]
  refine ⟨?_, ?_, ?_⟩
  · intro hf
    simp [hd, hf]
  · intro hf
    simp [hd, hf]
  · rw [get_set _ _ _ _ hl]
    cases hf : l.flushed with
    | false => simp [hd]
    | true =>
      have he := hinv hf
      cases l
      simp_all

theorem C8_debug_flushes_first_witness :
    (sampleDebugWorld.loggers[0]? = some sampleDebugLogger
      ∧ SliceOK sampleDebugWorld.heap sampleDebugLogger.keyvals
      ∧ (sampleDebugLogger.flushed = true → sampleDebugLogger.entries = [])
      ∧ sampleDebugLogger.options.debug = true)
    ∧ ((sampleDebugLogger.flushed = false →
        (log sampleDebugWorld (some 0) SeverityDebug true "dbg" [Value.str "k"] ⟨9, false⟩).out =
          sampleDebugWorld.out ++
            sampleDebugLogger.entries.map (render sampleDebugLogger.options sampleDebugWorld.heap) ++
            [(sampleDebugLogger.options.w, sampleDebugLogger.options.format
                ⟨Time.UTC ⟨9, false⟩, SeverityDebug,
                  padOdd (sampleDebugWorld.heap.read sampleDebugLogger.keyvals ++ [Value.str "k"]),
                  "dbg"⟩)])
      ∧ (sampleDebugLogger.flushed = true →
        (log sampleDebugWorld (some 0) SeverityDebug true "dbg" [Value.str "k"] ⟨9, false⟩).out =
          sampleDebugWorld.out ++ [(sampleDebugLogger.options.w, sampleDebugLogger.options.format
                ⟨Time.UTC ⟨9, false⟩, SeverityDebug,
                  padOdd (sampleDebugWorld.heap.read sampleDebugLogger.keyvals ++ [Value.str "k"]),
                  "dbg"⟩)])
      ∧ (log sampleDebugWorld (some 0) SeverityDebug true "dbg" [Value.str "k"] ⟨9, false⟩).loggers[0]?
          = some ⟨sampleDebugLogger.options, sampleDebugLogger.keyvals, [], true⟩) :=
  ⟨⟨rfl, by decide, by decide, rfl⟩,
    C8_debug_flushes_first sampleDebugWorld 0 sampleDebugLogger SeverityDebug true "dbg"
      [Value.str "k"] ⟨9, false⟩ rfl (by decide) (by decide) rfl⟩

/-- C9, counterexample: on a fresh logger two entries are buffered, then `With` adds the
pair `k`, `v`, then the logger is flushed. The shared list holds the pair, but the
formatter receives both entries with an empty key/value sequence. -/
theorem C9_counterexample :
    bufferedViews lateWithWorld 0 =
      [⟨⟨1, true⟩, SeverityInfo, [], "m1"⟩, ⟨⟨2, true⟩, SeverityInfo, [], "m2"⟩]
    ∧ (Flush lateWithWorld (some 0)).out =
      [(0, sampleFormat ⟨⟨1, true⟩, SeverityInfo, [], "m1"⟩),
       (0, sampleFormat ⟨⟨2, true⟩, SeverityInfo, [], "m2"⟩)]
    ∧ ¬ (∀ v ∈ bufferedViews lateWithWorld 0, Value.str "k" ∈ v.KeyVals) := by
  decide

/-- C9 as amended: the shared list is combined with an entry's own values when the log
call builds the entry, not at write-out. Two entries buffered one after the other and
flushed after any sequence of later `With` calls are each handed to the formatter with a
key/value sequence that has the length it was given at its log call and begins with the
shared list as it stood at that call: the later pairs are not added to it. -/
theorem C9_keyvals_fixed_at_log_time (w : World) (p : Nat) (l : logger)
    (sev1 : Severity) (msg1 : String) (kv1 : List Value) (now1 : Time)
    (sev2 : Severity) (msg2 : String) (kv2 : List Value) (now2 : Time)
    (kvs : List (List Value))
    (hl : w.loggers[p]? = some l) (hok : SliceOK w.heap l.keyvals)
    (hd : l.options.debug = false) (hf : l.flushed = false)
    (hs1 : sev1 ≠ SeverityDebug) (hs2 : sev2 ≠ SeverityDebug) :
    ∃ (l3 : logger) (e1 e2 : Entry),
      (WithAll (log (log w (some p) sev1 true msg1 kv1 now1) (some p) sev2 true msg2 kv2 now2)
        (some p) kvs).loggers[p]? = some l3
      ∧ l3.entries = l.entries ++ [e1, e2]
      ∧ (Flush (WithAll (log (log w (some p) sev1 true msg1 kv1 now1) (some p) sev2 true msg2 kv2
            now2) (some p) kvs) (some p)).out =
          w.out ++ l3.entries.map (render l.options
            (WithAll (log (log w (some p) sev1 true msg1 kv1 now1) (some p) sev2 true msg2 kv2 now2)
              (some p) kvs).heap)
      ∧ (e1.Time = now1.UTC ∧ e1.Severity = sev1 ∧ e1.Message = msg1)
      ∧ (e2.Time = now2.UTC ∧ e2.Severity = sev2 ∧ e2.Message = msg2)
      ∧ (((WithAll (log (log w (some p) sev1 true msg1 kv1 now1) (some p) sev2 true msg2 kv2 now2)
            (some p) kvs).heap.view e1).KeyVals.take (w.heap.read l.keyvals).length
            = w.heap.read l.keyvals
          ∧ ((WithAll (log (log w (some p) sev1 true msg1 kv1 now1) (some p) sev2 true msg2 kv2 now2)
            (some p) kvs).heap.view e1).KeyVals.length
            = (padOdd (w.heap.read l.keyvals ++ kv1)).length)
      ∧ (((WithAll (log (log w (some p) sev1 true msg1 kv1 now1) (some p) sev2 true msg2 kv2 now2)
            (some p) kvs).heap.view e2).KeyVals.take (w.heap.read l.keyvals).length
            = w.heap.read l.keyvals
          ∧ ((WithAll (log (log w (some p) sev1 true msg1 kv1 now1) (some p) sev2 true msg2 kv2 now2)
            (some p) kvs).heap.view e2).KeyVals.length
            = (padOdd (w.heap.read l.keyvals ++ kv2)).length) := by
  obtain ⟨e1, a1, a2, a3, a4, a5, a6, a7, a8, a9, _⟩ :=
    log_buf_spec w p l hl sev1 msg1 kv1 now1 hok hd hs1 hf
  obtain ⟨e2, b1, b2, b3, b4, b5, b6, b7, b8, b9, b10⟩ :=
    log_buf_spec (log w (some p) sev1 true msg1 kv1 now1) p _ a5 sev2 msg2 kv2 now2 a7 hd hs2 hf
  obtain ⟨s, c1, c2, c3⟩ := WithAll_pinned kvs _ p _ b5 b7
  rw [a8] at b9 b4
  have q1 := view_of_pinned _ _ _ _ (c3 _ _ (b10 _ _ a9))
  have q2 := view_of_pinned _ _ _ _ (c3 _ _ b9)
  refine ⟨_, e1, e2, c1, by simp, ?_, ⟨a1, a2, a3⟩, ⟨b1, b2, b3⟩, ⟨q1.1, ?_⟩, ⟨q2.1, ?_⟩⟩
  · rw [Flush_fresh _ p _ c1 hf, c2, b6, a6]
  · rw [← a4]
    exact q1.2
  · rw [← b4]
    exact q2.2

theorem C9_keyvals_fixed_at_log_time_witness :
    (sampleWorld.loggers[0]? = some sampleLogger ∧ SliceOK sampleWorld.heap sampleLogger.keyvals
      ∧ sampleLogger.options.debug = false ∧ sampleLogger.flushed = false
      ∧ SeverityInfo ≠ SeverityDebug)
    ∧ (∃ (l3 : logger) (e1 e2 : Entry),
      sampleLateWorld.loggers[0]? = some l3
      ∧ l3.entries = sampleLogger.entries ++ [e1, e2]
      ∧ (Flush sampleLateWorld (some 0)).out =
          sampleWorld.out ++ l3.entries.map (render sampleLogger.options
            sampleLateWorld.heap)
      ∧ (e1.Time = Time.UTC ⟨7, false⟩ ∧ e1.Severity = SeverityInfo ∧ e1.Message = "m1")
      ∧ (e2.Time = Time.UTC ⟨8, false⟩ ∧ e2.Severity = SeverityInfo ∧ e2.Message = "m2")
      ∧ ((sampleLateWorld.heap.view e1).KeyVals.take (sampleWorld.heap.read sampleLogger.keyvals).length
            = sampleWorld.heap.read sampleLogger.keyvals
          ∧ (sampleLateWorld.heap.view e1).KeyVals.length
            = (padOdd (sampleWorld.heap.read sampleLogger.keyvals ++ [Value.str "x", Value.int 1])).length)
      ∧ ((sampleLateWorld.heap.view e2).KeyVals.take (sampleWorld.heap.read sampleLogger.keyvals).length
            = sampleWorld.heap.read sampleLogger.keyvals
          ∧ (sampleLateWorld.heap.view e2).KeyVals.length
            = (padOdd (sampleWorld.heap.read sampleLogger.keyvals ++ [Value.str "z"])).length)) :=
  ⟨⟨rfl, by decide, rfl, rfl, by decide⟩,
    C9_keyvals_fixed_at_log_time sampleWorld 0 sampleLogger
      SeverityInfo "m1" [Value.str "x", Value.int 1] ⟨7, false⟩
      SeverityInfo "m2" [Value.str "z"] ⟨8, false⟩ [[Value.str "y", Value.int 2]]
      rfl (by decide) rfl rfl (by decide) (by decide)⟩

/-- C10, the code at the failing input: the entry `m1` is buffered with the pairs
`a`, 1, `b`, 2, `c`, 3, `x`, 1. A later `With` call with the pair `y`, 2, or a later log
call with the pair `z`, 9, writes into the same backing array: the entry in the buffer
is the same, but the formatter now receives `y`, 2 (or `z`, 9) in place of `x`, 1. -/
theorem C10_buffered_entry_overwritten :
    bufferedViews aliasWorld 0 =
      [⟨⟨1, true⟩, SeverityInfo,
        [Value.str "a", Value.int 1, Value.str "b", Value.int 2, Value.str "c", Value.int 3,
          Value.str "x", Value.int 1], "m1"⟩]
    ∧ bufferOf aliasWorldLater 0 = bufferOf aliasWorld 0
    ∧ bufferedViews aliasWorldLater 0 =
      [⟨⟨1, true⟩, SeverityInfo,
        [Value.str "a", Value.int 1, Value.str "b", Value.int 2, Value.str "c", Value.int 3,
          Value.str "y", Value.int 2], "m1"⟩]
    ∧ (Flush aliasWorldLater (some 0)).out =
      [(0, sampleFormat ⟨⟨1, true⟩, SeverityInfo,
        [Value.str "a", Value.int 1, Value.str "b", Value.int 2, Value.str "c", Value.int 3,
          Value.str "y", Value.int 2], "m1"⟩)]
    ∧ bufferedViews aliasWorldLogged 0 =
      [⟨⟨1, true⟩, SeverityInfo,
        [Value.str "a", Value.int 1, Value.str "b", Value.int 2, Value.str "c", Value.int 3,
          Value.str "z", Value.int 9], "m1"⟩,
       ⟨⟨2, true⟩, SeverityInfo,
        [Value.str "a", Value.int 1, Value.str "b", Value.int 2, Value.str "c", Value.int 3,
          Value.str "z", Value.int 9], "m2"⟩] := by
  decide

/-- C11, the code on key/value sequences of odd length: `Parse` panics on the input
`["a"]`, and on every other sequence of odd length, where the specification asks for the
result keys `["a"]`, values `[nil]`. The slices `keys` and `vals` are made with
`len(kv)/2` elements, and the loop then stores at the index `len(kv)/2`. -/
theorem C11_Parse_panics_on_odd_length :
    KeyVals.Parse [Value.str "a"] = Outcome.panic
    ∧ KeyVals.Parse [Value.str "a", Value.int 1, Value.str "b"] = Outcome.panic
    ∧ (∀ kv : List Value, kv.length % 2 = 1 → KeyVals.Parse kv = Outcome.panic) := by
  refine ⟨by decide, by decide, ?_⟩
  intro kv hodd
  rw [parse_eq]
  simp [hodd]

/-- C12: on a key/value sequence of even length `Parse` returns keys and values of the same
length, half the length of the sequence, in the order of the sequence: the value at `i`
is the element at `2 * i + 1` unchanged, and the key at `i` is the element at `2 * i` when
that is a string and the literal `<INVALID>` otherwise. -/
theorem C12_Parse_even_length (kv : List Value) (heven : kv.length % 2 = 0) :
    ∃ (keys : List String) (vals : List Value),
      KeyVals.Parse kv = Outcome.ok (keys, vals)
      ∧ keys.length = kv.length / 2 ∧ vals.length = kv.length / 2
      ∧ ∀ i, i < kv.length / 2 →
          vals[i]? = kv[2 * i + 1]?
          ∧ (∀ s, kv[2 * i]? = some (Value.str s) → keys[i]? = some s)
          ∧ ((∀ s, kv[2 * i]? ≠ some (Value.str s)) → keys[i]? = some "<INVALID>") := by
  refine ⟨specKeys kv, specVals kv, ?_, specKeys_length kv, specVals_length kv, ?_⟩
  · rw [parse_eq]
    simp [heven]
  · intro i hi
    have h2 : 2 * i < kv.length := by omega
    refine ⟨specVals_get kv i hi, ?_, ?_⟩
    · intro s hs
      rw [specKeys_get kv i hi, hs]
      rfl
    · intro hs
      rw [specKeys_get kv i hi, List.getElem?_eq_getElem h2]
      rw [List.getElem?_eq_getElem h2] at hs
      cases hv : kv[2 * i] with
      | str s => exact absurd (by rw [hv]) (hs s)
      | null => rfl
      | int n => rfl
      | bool b => rfl

theorem C12_Parse_even_length_witness :
    [Value.int 42, Value.str "v", Value.str "k", Value.null].length % 2 = 0
    ∧ ∃ (keys : List String) (vals : List Value),
      KeyVals.Parse [Value.int 42, Value.str "v", Value.str "k", Value.null] = Outcome.ok (keys, vals)
      ∧ keys.length = [Value.int 42, Value.str "v", Value.str "k", Value.null].length / 2
      ∧ vals.length = [Value.int 42, Value.str "v", Value.str "k", Value.null].length / 2
      ∧ ∀ i, i < [Value.int 42, Value.str "v", Value.str "k", Value.null].length / 2 →
          vals[i]? = [Value.int 42, Value.str "v", Value.str "k", Value.null][2 * i + 1]?
          ∧ (∀ s, [Value.int 42, Value.str "v", Value.str "k", Value.null][2 * i]?
                = some (Value.str s) → keys[i]? = some s)
          ∧ ((∀ s, [Value.int 42, Value.str "v", Value.str "k", Value.null][2 * i]?
                ≠ some (Value.str s)) → keys[i]? = some "<INVALID>") :=
  ⟨by decide, C12_Parse_even_length [Value.int 42, Value.str "v", Value.str "k", Value.null]
    (by decide)⟩

/-- C13, the code at the failing input: the shared list has six elements in an array of
eight, and the buffered entry `m1` ends with the pair `x`, 1 in the last two cells.
`With` with the pair `y`, 2 extends the shared list as asked and keeps the entry
objects and the latch, but it writes the pair into those two cells: the buffer no longer
holds what it held, and a `Flush` after the call writes `y`, 2 for `m1` where a `Flush`
before the call writes `x`, 1. -/
theorem C13_With_overwrites_buffered_entry :
    bufferOf (With aliasWorld (some 0) [Value.str "y", Value.int 2]).1 0 = bufferOf aliasWorld 0
    ∧ bufferedViews aliasWorld 0 =
      [⟨⟨1, true⟩, SeverityInfo,
        [Value.str "a", Value.int 1, Value.str "b", Value.int 2, Value.str "c", Value.int 3,
          Value.str "x", Value.int 1], "m1"⟩]
    ∧ bufferedViews (With aliasWorld (some 0) [Value.str "y", Value.int 2]).1 0 =
      [⟨⟨1, true⟩, SeverityInfo,
        [Value.str "a", Value.int 1, Value.str "b", Value.int 2, Value.str "c", Value.int 3,
          Value.str "y", Value.int 2], "m1"⟩]
    ∧ bufferedViews (With aliasWorld (some 0) [Value.str "y", Value.int 2]).1 0
        ≠ bufferedViews aliasWorld 0
    ∧ (Flush (With aliasWorld (some 0) [Value.str "y", Value.int 2]).1 (some 0)).out
        ≠ (Flush aliasWorld (some 0)).out
    ∧ (With aliasWorld (some 0) [Value.str "y", Value.int 2]).1.out = aliasWorld.out := by
  decide

/-- C14: on a context without a logger each of `Debug`, `Info`, `Print`, `Error`, `Flush`
and `With` leaves the whole state as it is (nothing is written, no logger is created)
and has no error to report; `With` returns the context it was given. -/
theorem C14_unbound_context_noop (w : World) (msg : String) (kv : List Value) (now : Time) :
    Debug w none msg kv now = w
    ∧ Info w none msg kv now = w
    ∧ Print w none msg kv now = w
    ∧ Error w none msg kv now = w
    ∧ Flush w none = w
    ∧ With w none kv = (w, none) :=
  ⟨rfl, rfl, rfl, rfl, rfl, rfl⟩

/-- C15: on a context that carries a logger, `Context` returns a context bound to the same
logger; the buffer, the shared list and the latch of that logger are what they were,
nothing is written, the heap and the other loggers are untouched, and the options are
the old options with the given options applied in order. -/
theorem C15_Context_keeps_logger (dflt : options) (w : World) (p : Nat) (l : logger)
    (opts : List LogOption) (hl : w.loggers[p]? = some l) :
    (Context dflt w (some p) opts).2 = some p
    ∧ (Context dflt w (some p) opts).1.loggers[p]? =
        some ⟨opts.foldl (fun o opt => opt o) l.options, l.keyvals, l.entries, l.flushed⟩
    ∧ (Context dflt w (some p) opts).1.loggers =
        w.loggers.set p ⟨opts.foldl (fun o opt => opt o) l.options, l.keyvals, l.entries, l.flushed⟩
    ∧ (Context dflt w (some p) opts).1.out = w.out
    ∧ (Context dflt w (some p) opts).1.heap = w.heap
    ∧ (Context dflt w (some p) opts).1.loggers.length = w.loggers.length := by
  have h : Context dflt w (some p) opts =
      (⟨w.grow, w.heap, w.loggers.set p
        ⟨opts.foldl (fun o opt => opt o) l.options, l.keyvals, l.entries, l.flushed⟩,
        w.out⟩, some p) := by
    unfold Context
    rw [lookup_some w p l hl]
  rw [h]
  exact ⟨rfl, get_set _ _ _ _ hl, rfl, rfl, rfl, by simp⟩

theorem C15_Context_keeps_logger_witness :
    sampleWorld.loggers[0]? = some sampleLogger
    ∧ ((Context sampleOptions sampleWorld (some 0) [sampleDebugOn]).2 = some 0
      ∧ (Context sampleOptions sampleWorld (some 0) [sampleDebugOn]).1.loggers[0]? =
          some ⟨[sampleDebugOn].foldl (fun o opt => opt o) sampleLogger.options,
            sampleLogger.keyvals, sampleLogger.entries, sampleLogger.flushed⟩
      ∧ (Context sampleOptions sampleWorld (some 0) [sampleDebugOn]).1.loggers =
          sampleWorld.loggers.set 0 ⟨[sampleDebugOn].foldl (fun o opt => opt o) sampleLogger.options,
            sampleLogger.keyvals, sampleLogger.entries, sampleLogger.flushed⟩
      ∧ (Context sampleOptions sampleWorld (some 0) [sampleDebugOn]).1.out = sampleWorld.out
      ∧ (Context sampleOptions sampleWorld (some 0) [sampleDebugOn]).1.heap = sampleWorld.heap
      ∧ (Context sampleOptions sampleWorld (some 0) [sampleDebugOn]).1.loggers.length
          = sampleWorld.loggers.length) :=
  ⟨rfl, C15_Context_keeps_logger sampleOptions sampleWorld 0 sampleLogger [sampleDebugOn] rfl⟩

/-- C16: the example scenario on a context without a logger, with debug mode off in the
default options. Nothing is written by `Context`, `With`, `Debug` and `Info`; after
`Error` the trace has gained exactly two writes, first the Info entry `step1` and then
the Error entry `boom`, both with the key/value sequence `req_id`, `r1`. No entry
`start` is written. -/
theorem C16_scenario (dflt : options) (w : World) (t1 t2 t3 : Time)
    (hd : dflt.debug = false) :
    (scenarioWorlds dflt w t1 t2 t3).map World.out =
      [w.out, w.out, w.out, w.out,
        w.out ++
          [(dflt.w, dflt.format
              ⟨t2.UTC, SeverityInfo, [Value.str "req_id", Value.str "r1"], "step1"⟩),
           (dflt.w, dflt.format
              ⟨t3.UTC, SeverityError, [Value.str "req_id", Value.str "r1"], "boom"⟩)]] := by
  unfold scenarioWorlds
  simp only [Context_fresh, List.foldl_nil]
  have hl0 : (⟨w.grow, w.heap, w.loggers ++ [⟨dflt, Slice.nil, [], false⟩], w.out⟩ :
      World).loggers[w.loggers.length]? = some ⟨dflt, Slice.nil, [], false⟩ := by
    simp
  have hok0 : SliceOK w.heap Slice.nil := ⟨le_refl _, Nat.zero_le _⟩
  have hW := With_unfold _ _ _ hl0 [Value.str "req_id", Value.str "r1"]
  obtain ⟨s, a1, a2, a3, a4, _⟩ :=
    WithAll_spec [[Value.str "req_id", Value.str "r1"]] _ _ _ hl0 hok0
  simp only [WithAll, List.foldl_cons, List.foldl_nil] at a1 a2 a3 a4
  have hP : (Heap.read w.heap Slice.nil) = [] := by simp [Heap.read, Slice.nil]
  have hpad : padOdd [Value.str "req_id", Value.str "r1"] =
      [Value.str "req_id", Value.str "r1"] := by decide
  simp only [hP, List.map_cons, List.map_nil, List.flatten_cons, List.flatten_nil, hpad,
    List.nil_append, List.append_nil] at a3
  have hctx : (With (⟨w.grow, w.heap, w.loggers ++ [⟨dflt, Slice.nil, [], false⟩], w.out⟩ : World)
      (some w.loggers.length) [Value.str "req_id", Value.str "r1"]).2 = some w.loggers.length := by
    rw [hW]
  rw [hctx]
  generalize (With (⟨w.grow, w.heap, w.loggers ++ [⟨dflt, Slice.nil, [], false⟩], w.out⟩ : World)
      (some w.loggers.length) [Value.str "req_id", Value.str "r1"]).1 = W1 at a1 a2 a3 a4
  have hD : Debug W1 (some w.loggers.length) "start" [] t1 = W1 :=
    log_dropped W1 _ _ a1 hd true "start" [] t1
  rw [hD]
  obtain ⟨e, b1, b2, b3, b4, b5, b6, b7, b8, b9, _⟩ :=
    log_buf_spec W1 _ _ a1 SeverityInfo "step1" [] t2 a2 hd (by decide) rfl
  have hI : Info W1 (some w.loggers.length) "step1" [] t2 =
      log W1 (some w.loggers.length) SeverityInfo true "step1" [] t2 := rfl
  rw [hI]
  have hE := Error_spec (log W1 (some w.loggers.length) SeverityInfo true "step1" [] t2)
    _ _ "boom" [] t3 b5 b7 (fun h => by cases h)
  have hv := view_of_pinned _ _ _ _ b9
  simp only [a3, List.append_nil, hpad] at b4 b8 hv
  have hread : (log W1 (some w.loggers.length) SeverityInfo true "step1" [] t2).heap.read
      e.KeyVals = [Value.str "req_id", Value.str "r1"] := by
    have h1 := hv.1
    have h2 := hv.2
    rw [b4] at h2
    have h3 : List.take 2 ((log W1 (some w.loggers.length) SeverityInfo true "step1" [] t2).heap.read
        e.KeyVals) = (log W1 (some w.loggers.length) SeverityInfo true "step1" [] t2).heap.read
        e.KeyVals := by
      apply List.take_of_length_le
      simp at h2
      omega
    simp only [List.length_cons, List.length_nil] at h1
    rw [← h3]
    exact h1
  simp only [List.map_cons, List.map_nil, a4, b6, hE.1, List.nil_append, render, Heap.view,
    hread, b1, b2, b3, b8, List.append_nil, hpad, List.append_assoc, List.singleton_append]

theorem C16_scenario_witness :
    sampleOptions.debug = false
    ∧ (scenarioWorlds sampleOptions World.empty ⟨1, false⟩ ⟨2, false⟩ ⟨3, false⟩).map World.out =
      [World.empty.out, World.empty.out, World.empty.out, World.empty.out,
        World.empty.out ++
          [(sampleOptions.w, sampleOptions.format
              ⟨Time.UTC ⟨2, false⟩, SeverityInfo, [Value.str "req_id", Value.str "r1"], "step1"⟩),
           (sampleOptions.w, sampleOptions.format
              ⟨Time.UTC ⟨3, false⟩, SeverityError, [Value.str "req_id", Value.str "r1"], "boom"⟩)]] :=
  ⟨rfl, C16_scenario sampleOptions World.empty ⟨1, false⟩ ⟨2, false⟩ ⟨3, false⟩ rfl⟩

/-- C17, the code at the failing input: the value 0 of the type `Severity` is none of the
three defined severities, and `Code` returns for it the string `<INVALID>`, of nine
characters, where its documentation promises a code of four characters; the same holds
of every value other than the three defined ones. For those three the codes are `DEBG`,
`INFO` and `ERRO`, of four characters each, and `String` returns `DEBUG`, `INFO` and
`ERROR`. -/
theorem C17_Code_of_undefined_severity :
    (Severity.Code 0 = "<INVALID>" ∧ (Severity.Code 0).length = 9)
    ∧ ¬ (∀ s : Severity, (Severity.Code s).length = 4)
    ∧ (∀ s : Severity, s ≠ SeverityDebug → s ≠ SeverityInfo → s ≠ SeverityError →
        Severity.Code s = "<INVALID>" ∧ (Severity.Code s).length = 9)
    ∧ (Severity.Code SeverityDebug = "DEBG" ∧ Severity.Code SeverityInfo = "INFO"
      ∧ Severity.Code SeverityError = "ERRO")
    ∧ (∀ s : Severity, (s = SeverityDebug ∨ s = SeverityInfo ∨ s = SeverityError) →
        (Severity.Code s).length = 4)
    ∧ (Severity.String SeverityDebug = "DEBUG" ∧ Severity.String SeverityInfo = "INFO"
      ∧ Severity.String SeverityError = "ERROR") := by
  refine ⟨⟨by decide, by decide⟩, ?_, ?_, ⟨by decide, by decide, by decide⟩, ?_,
    ⟨by decide, by decide, by decide⟩⟩
  · intro h
    exact absurd (h 0) (by decide)
  · intro s h1 h2 h3
    have hc : Severity.Code s = "<INVALID>" := by
      simp [Severity.Code, h1, h2, h3]
    rw [hc]
    exact ⟨rfl, by decide⟩
  · intro s hs
    rcases hs with h | h | h <;> subst h <;> decide

/-- C18, the code under two concurrent callers: `Error` is two critical sections, its
`Flush` and its `log`, and `Context` changes the options without the mutex. When the
`Info` call of another caller runs between the two sections of `Error`, its entry is
written after the flushed entries and before the error entry. -/
theorem C18_Error_is_two_critical_sections :
    (∀ (msg : String) (kv : List Value) (now : Time),
      Call.sections (Call.Error msg kv now) = [Call.Flush, Call.log SeverityError true msg kv now])
    ∧ (∀ opts : List LogOption, Call.holdsMutex (Call.Context opts) = false)
    ∧ (runAll sampleOptions sampleWorld raceSchedule).out =
        [(0, sampleFormat ⟨⟨5, true⟩, SeverityInfo, [Value.str "req_id", Value.str "r1"], "step1"⟩),
         (0, sampleFormat ⟨⟨6, true⟩, SeverityInfo,
            [Value.str "req_id", Value.str "r1", Value.str "n", Value.int 7], "step2"⟩),
         (0, sampleFormat ⟨⟨8, true⟩, SeverityInfo, [Value.str "req_id", Value.str "r1"], "other"⟩),
         (0, sampleFormat ⟨⟨9, true⟩, SeverityError, [Value.str "req_id", Value.str "r1"], "boom"⟩)] := by
  refine ⟨fun _ _ _ => rfl, fun _ => rfl, by decide⟩

/-- C19: from a state without loggers, after every sequence of calls on any contexts, the
shared list of every logger has even length, and so has the key/value sequence of
every entry in a buffer and of every entry that was handed to the formatter during the
sequence (the trace of writes is the rendering of exactly those); hence `Parse` returns
on each of them without indexing out of range. -/
theorem C19_even_lengths (dflt : options) (g : Nat → Nat → Nat) (h0 : Heap)
    (o0 : List (Nat × Bytes)) (cs : List (Ctx × Call)) :
    (runAll dflt ⟨g, h0, [], o0⟩ cs).out =
        o0 ++ (runViews dflt ⟨g, h0, [], o0⟩ cs).map written
    ∧ (∀ ov ∈ runViews dflt ⟨g, h0, [], o0⟩ cs,
        ov.2.KeyVals.length % 2 = 0
        ∧ KeyVals.Parse ov.2.KeyVals = Outcome.ok (specKeys ov.2.KeyVals, specVals ov.2.KeyVals))
    ∧ (∀ (p : Nat) (l : logger), (runAll dflt ⟨g, h0, [], o0⟩ cs).loggers[p]? = some l →
        ((runAll dflt ⟨g, h0, [], o0⟩ cs).heap.read l.keyvals).length % 2 = 0
        ∧ ∀ e ∈ l.entries,
            (((runAll dflt ⟨g, h0, [], o0⟩ cs).heap.view e).KeyVals).length % 2 = 0
            ∧ KeyVals.Parse ((runAll dflt ⟨g, h0, [], o0⟩ cs).heap.view e).KeyVals =
                Outcome.ok (specKeys ((runAll dflt ⟨g, h0, [], o0⟩ cs).heap.view e).KeyVals,
                  specVals ((runAll dflt ⟨g, h0, [], o0⟩ cs).heap.view e).KeyVals)) := by
  have h0ok : EvenOK ⟨g, h0, [], o0⟩ := by
    intro p l hl
    simp at hl
  have hfin := evenOK_runAll dflt cs _ h0ok
  refine ⟨runAll_out dflt cs _, ?_, ?_⟩
  · intro ov hov
    have := runViews_even dflt cs _ h0ok ov hov
    exact ⟨this, parse_ok_of_even _ this⟩
  · intro p l hl
    obtain ⟨a1, a2, a3⟩ := hfin p l hl
    refine ⟨by rw [read_length _ _ a1]; exact a2, ?_⟩
    intro e he
    have : (((runAll dflt ⟨g, h0, [], o0⟩ cs).heap.view e).KeyVals).length % 2 = 0 := by
      simp only [Heap.view]
      rw [read_length_of_le _ _ (a3 e he).2]
      exact (a3 e he).1
    exact ⟨this, parse_ok_of_even _ this⟩

/-- C20: for every sequence of calls on one logger that all ask for buffering (`Context`,
`With`, `Debug`, `Info`, `Error`, `Flush`, no `Print`), from any state the program can be
in: the entries handed to the formatter and written during the sequence, followed by the
entries in the buffer at its end, are the entries that were in the buffer at its start
followed by the entries of the log calls the debug filter let through, in call order and
each once. On a logger whose buffer was empty these are the accepted log calls alone. -/
theorem C20_no_entry_lost (dflt : options) (w : World) (p : Nat) (l : logger)
    (cs : List Call)
    (hl : w.loggers[p]? = some l) (hc : Consistent w)
    (hb : ∀ c ∈ cs, c.buffers = true) :
    (runAll dflt w (onLogger p cs)).out =
        w.out ++ (runViews dflt w (onLogger p cs)).map written
    ∧ (runViews dflt w (onLogger p cs)).map (fun ov => ov.2.stamp)
          ++ (bufferOf (runAll dflt w (onLogger p cs)) p).map Entry.stamp
        = l.entries.map Entry.stamp ++ runAccepted dflt w (onLogger p cs)
    ∧ (l.entries = [] →
        (runViews dflt w (onLogger p cs)).map (fun ov => ov.2.stamp)
          ++ (bufferOf (runAll dflt w (onLogger p cs)) p).map Entry.stamp
        = runAccepted dflt w (onLogger p cs))
    ∧ (∀ c : Call, (c.run dflt w (some p)).2 = some p) := by
  have key := conserve_runAll dflt cs w hc p l hl hb
  rw [bufferOf_eq w p l hl] at key
  refine ⟨runAll_out dflt _ w, key, ?_, fun c => run_ctx dflt w p l hl c⟩
  intro he
  rw [key, he]
  rfl

theorem C20_no_entry_lost_witness :
    (sampleWorld.loggers[0]? = some sampleLogger ∧ Consistent sampleWorld
      ∧ (∀ c ∈ [Call.Debug "d" [] ⟨7, false⟩, Call.Info "i" [Value.str "k"] ⟨8, false⟩,
            Call.Error "boom" [] ⟨9, false⟩, Call.Flush, Call.Info "late" [] ⟨10, false⟩],
          c.buffers = true))
    ∧ (runViews sampleOptions sampleWorld (onLogger 0
          [Call.Debug "d" [] ⟨7, false⟩, Call.Info "i" [Value.str "k"] ⟨8, false⟩,
            Call.Error "boom" [] ⟨9, false⟩, Call.Flush, Call.Info "late" [] ⟨10, false⟩])).map
          (fun ov => ov.2.stamp)
        ++ (bufferOf (runAll sampleOptions sampleWorld (onLogger 0
          [Call.Debug "d" [] ⟨7, false⟩, Call.Info "i" [Value.str "k"] ⟨8, false⟩,
            Call.Error "boom" [] ⟨9, false⟩, Call.Flush, Call.Info "late" [] ⟨10, false⟩])) 0).map
          Entry.stamp
      = sampleLogger.entries.map Entry.stamp ++ runAccepted sampleOptions sampleWorld (onLogger 0
          [Call.Debug "d" [] ⟨7, false⟩, Call.Info "i" [Value.str "k"] ⟨8, false⟩,
            Call.Error "boom" [] ⟨9, false⟩, Call.Flush, Call.Info "late" [] ⟨10, false⟩]) :=
  ⟨⟨rfl, sampleWorld_consistent, by decide⟩,
    (C20_no_entry_lost sampleOptions sampleWorld 0 sampleLogger
      [Call.Debug "d" [] ⟨7, false⟩, Call.Info "i" [Value.str "k"] ⟨8, false⟩,
        Call.Error "boom" [] ⟨9, false⟩, Call.Flush, Call.Info "late" [] ⟨10, false⟩]
      rfl sampleWorld_consistent (by decide)).2.1⟩

end Clue
